import Mathlib

/-!
Verification development for the version-resolution and transactional
substitution engine of `poetry_dynamic_versioning/__init__.py`.

The Python source is shallowly embedded below.  Pure functions become Lean
functions; the process-wide mutable registry and the filesystem become
explicit state threaded through the functions; code that raises exceptions
returns `Except String`.  External collaborators (the `dunamai` VCS
introspection library, the `jinja2` template engine, `tomlkit` manifest
parsing) are modelled as parameters or as structured values, exactly as the
specification designates them as collaborators outside the core.
-/

set_option autoImplicit false

namespace PDV

/-! ### Python string primitives

Helpers reproducing the Python string operations the source relies on
(`str.split`, `str.strip`, `int(...)`, `",".join`).  They operate on
`List Char` so that every definition is structurally recursive and reduces
inside the kernel.  Whitespace is modelled as ASCII whitespace (the source
only ever strips ASCII space around version override tokens). -/

def isPySpace (c : Char) : Bool :=
  c = ' ' ∨ c = '\t' ∨ c = '\n' ∨ c = '\r' ∨ c = '\x0b' ∨ c = '\x0c'

/-- Python `s.strip()` on a character list. -/
def pyStrip (l : List Char) : List Char :=
  ((l.dropWhile isPySpace).reverse.dropWhile isPySpace).reverse

/-- Python `s.split(sep)` for a single-character separator: keeps empty
fields, and `"".split(sep) == [""]`. -/
def pySplitChar (sep : Char) : List Char → List (List Char)
  | [] => [[]]
  | c :: rest =>
    let r := pySplitChar sep rest
    if c = sep then [] :: r
    else
      match r with
      | [] => [[c]]
      | h :: t => (c :: h) :: t

/-- Python `re.split` over a class of single characters (used for
`re.split(r"[-.]", s)`): split at every occurrence of any listed
character, keeping empty fields. -/
def pySplitAny (seps : List Char) : List Char → List (List Char)
  | [] => [[]]
  | c :: rest =>
    let r := pySplitAny seps rest
    if seps.contains c then [] :: r
    else
      match r with
      | [] => [[c]]
      | h :: t => (c :: h) :: t

/-- Python `s.split(sep, 1)`: at most one split, at the first occurrence. -/
def pySplitOnce (sep : Char) : List Char → List Char → List (List Char)
  | [], acc => [acc.reverse]
  | c :: rest, acc =>
    if c = sep then [acc.reverse, rest] else pySplitOnce sep rest (c :: acc)

/-- Digit run of a Python integer literal body: ASCII digits with single
underscores allowed between digits (Python 3.6+ `int` syntax). -/
def pyDigitsAux : List Char → Nat → Option Nat
  | [], acc => some acc
  | '_' :: c :: rest, acc =>
    if c.isDigit then pyDigitsAux rest (acc * 10 + (c.toNat - 48)) else none
  | ['_'], _ => none
  | c :: rest, acc =>
    if c.isDigit then pyDigitsAux rest (acc * 10 + (c.toNat - 48)) else none

def pyDigits : List Char → Option Nat
  | [] => none
  | c :: rest => if c.isDigit then pyDigitsAux rest (c.toNat - 48) else none

/-- Python `int(s)` (ASCII fragment): surrounding whitespace stripped, an
optional sign, then a digit run.  Unicode digits are outside the model. -/
def pyInt (l : List Char) : Option Int :=
  let t := pyStrip l
  match t with
  | '+' :: rest => (pyDigits rest).map Int.ofNat
  | '-' :: rest => (pyDigits rest).map (fun n => -(n : Int))
  | _ => (pyDigits t).map Int.ofNat

/-- Python `sep.join(parts)`. -/
def pyJoin (sep : String) : List String → String
  | [] => ""
  | [x] => x
  | x :: xs => x ++ sep ++ pyJoin sep xs

/-- Split a relative path string on `/` into segments (for
`Path.joinpath` and glob patterns). -/
def splitPathString (s : String) : List String :=
  (pySplitChar '/' s.data).map List.asString

/-! ### Tuple-mode version encoding

The body of the `elif pattern.mode == "tuple"` branch of
`_substitute_version_in_text` (source lines 485-498), extracted as a
function of the version string: split off metadata at the first `+`, split
the rest on `-` and `.`, coerce each non-empty token through `int` when
possible, quote the rest, comma-join, and append a trailing comma when a
single element results. -/

def tupleInsert (version : String) : String :=
  let split0 := pySplitOnce '+' version.data []
  let split :=
    match split0 with
    | [] => []
    | first :: restSplit => pySplitAny ['-', '.'] first ++ restSplit
  let parts := split.foldl
    (fun parts part =>
      if part = [] then parts
      else
        match pyInt part with
        | some n => parts ++ [toString n]
        | none => parts ++ ["\"" ++ part.asString ++ "\""])
    []
  let insert := pyJoin ", " parts
  if parts.length = 1 then insert ++ "," else insert

/-! ### Regex substitution engine

The source calls `re.sub(pattern, r"\g<1>{insert}\g<2>", content,
flags=re.MULTILINE)` with user-supplied patterns.  The specification's
invariant on `SubstitutionPattern` is that every pattern contains exactly
two capture groups, a prefix group and a suffix group, around the replaced
span; a compiled pattern is therefore embedded as three regexes
`(g1)mid(g2)`.  The matcher below implements Python's leftmost,
backtracking (first-preference) match semantics with `re.MULTILINE`
anchors, and `reSub` implements `re.sub`'s scan-and-replace loop including
its empty-match behaviour (Python 3.7+).  Star iterations are required to
consume at least one character, which agrees with Python for every pattern
whose starred body cannot match the empty string (all patterns used here).
The replacement template `\g<1>{insert}\g<2>` is escape-processed
exactly as `sre_parse.parse_template` does — eagerly, before scanning —
so a backslash in `insert` is translated, becomes a group reference, or
raises `re.error`, even when the pattern never matches. -/

inductive Regex where
  | eps : Regex
  | chr (c : Char) : Regex
  | cls (negated : Bool) (chars : List Char) : Regex
  | anyc : Regex
  | concat (a b : Regex) : Regex
  | alt (a b : Regex) : Regex
  | star (greedy : Bool) (r : Regex) : Regex
  | opt (greedy : Bool) (r : Regex) : Regex
  | bol : Regex
  deriving DecidableEq, Inhabited

/-- Sequence a list of regexes. -/
def seqList (rs : List Regex) : Regex :=
  rs.foldr Regex.concat Regex.eps

/-- Literal string regex. -/
def lits (s : String) : Regex :=
  seqList (s.data.map Regex.chr)

/-- A match candidate: consumed characters, the new "previous character"
(for `^` in multiline mode), and the remaining input. -/
abbrev MatchEnd := List Char × Option Char × List Char

/-- Iterate a star body (given as its candidate-producing function) in
backtracking preference order.  Each iteration must consume at least one
character; `fuel` bounds the number of iterations and is always called
with more fuel than characters remain, so the base case is unreachable. -/
def starLoop (f : Option Char → List Char → List MatchEnd) (greedy : Bool) :
    Nat → Option Char → List Char → List MatchEnd
  | 0, prev, s => [([], prev, s)]
  | n + 1, prev, s =>
    let step := (f prev s).filter (fun e => ¬ e.1 = [])
    let deeper := step.flatMap
      (fun e => (starLoop f greedy n e.2.1 e.2.2).map
        (fun e2 => (e.1 ++ e2.1, e2.2.1, e2.2.2)))
    if greedy then deeper ++ [([], prev, s)] else ([], prev, s) :: deeper

/-- All match candidates of a regex at the current position, in Python's
backtracking preference order.  `prev` is the character immediately before
the current position (`none` at the start of the subject). -/
def mends : Regex → Option Char → List Char → List MatchEnd
  | .eps, prev, s => [([], prev, s)]
  | .chr c, _, s =>
    match s with
    | [] => []
    | a :: rest => if a = c then [([a], some a, rest)] else []
  | .cls negated chars, _, s =>
    match s with
    | [] => []
    | a :: rest =>
      if (chars.contains a) ≠ negated then [([a], some a, rest)] else []
  | .anyc, _, s =>
    match s with
    | [] => []
    | a :: rest => if a = '\n' then [] else [([a], some a, rest)]
  | .concat r1 r2, prev, s =>
    (mends r1 prev s).flatMap
      (fun e => (mends r2 e.2.1 e.2.2).map
        (fun e2 => (e.1 ++ e2.1, e2.2.1, e2.2.2)))
  | .alt r1 r2, prev, s => mends r1 prev s ++ mends r2 prev s
  | .star greedy r, prev, s =>
    starLoop (fun p t => mends r p t) greedy (s.length + 1) prev s
  | .opt greedy r, prev, s =>
    if greedy then mends r prev s ++ [([], prev, s)]
    else ([], prev, s) :: mends r prev s
  | .bol, prev, s =>
    if prev = none ∨ prev = some '\n' then [([], prev, s)] else []

/-- A compiled substitution pattern: two capture groups around the
replaced span, `(g1)mid(g2)`. -/
structure GroupedRegex where
  g1 : Regex
  mid : Regex
  g2 : Regex
  deriving DecidableEq, Inhabited

/-- First (leftmost-position is handled by the caller) match of the
pattern at the current position: returns the two captured group texts, the
mid text, and the rest of the subject. -/
def matchTriple (p : GroupedRegex) (prev : Option Char) (s : List Char) :
    Option (List Char × List Char × List Char × Option Char × List Char) :=
  ((mends p.g1 prev s).flatMap
    (fun e1 => (mends p.mid e1.2.1 e1.2.2).flatMap
      (fun e2 => (mends p.g2 e2.2.1 e2.2.2).map
        (fun e3 => (e1.1, e2.1, e3.1, e3.2.1, e3.2.2))))).head?

/-- An item of a parsed `re.sub` replacement template: a literal
character or a capture-group reference (group `0` is the whole match). -/
inductive TmplItem where
  | lit (c : Char)
  | group (n : Nat)
  deriving DecidableEq, Inhabited

/-- `sre_parse.ESCAPES` as consumed by replacement templates: the
recognised escape letters and the character each one denotes. -/
def sreEscapes : List (Char × Char) :=
  [('a', '\x07'), ('b', '\x08'), ('f', '\x0c'), ('n', '\n'),
   ('r', '\r'), ('t', '\t'), ('v', '\x0b'), ('\\', '\\')]

def isAsciiLetterCh (c : Char) : Bool :=
  ('a' ≤ c ∧ c ≤ 'z') ∨ ('A' ≤ c ∧ c ≤ 'Z')

def isOctCh (c : Char) : Bool := '0' ≤ c ∧ c ≤ '7'

def digitVal (c : Char) : Nat := c.toNat - 48

/-- ASCII fragment of Python `str.isidentifier` (the group names this
program can feed to the template parser are ASCII text). -/
def pyIsIdentifier : List Char → Bool
  | [] => false
  | c :: rest =>
    (isAsciiLetterCh c ∨ c = '_') ∧
      rest.all (fun d => isAsciiLetterCh d ∨ d.isDigit ∨ d = '_')

/-- `Tokenizer.getuntil(">")` of `sre_parse`: collect the group name up
to the terminator.  Returns the name, the rest of the template after the
terminator, and the position after the terminator (`pos` is the position
of the next unread character, used in error messages). -/
def getUntilGt : Nat → List Char → Except String (List Char × List Char × Nat)
  | pos, [] => .error ("missing >, unterminated name at position " ++ toString pos)
  | pos, c :: rest =>
    if c = '>' then .ok ([], rest, pos + 1)
    else (getUntilGt (pos + 1) rest).map (fun r => (c :: r.1, r.2.1, r.2.2))

/-- Resolution of a `\g<name>` group name (`sre_parse.parse_template`):
an identifier name is looked up among named groups — the plugin's
two-capture-group patterns have none, so it raises
`IndexError: unknown group name` — and any other name goes through
`int(...)`; negative or unparsable names are a `bad character` error and
indices above 2 (the pattern invariant fixes exactly two capture groups)
are an `invalid group reference` error, as in CPython. -/
def resolveGroupName (name : List Char) (nameStart : Nat) :
    Except String Nat :=
  if pyIsIdentifier name then
    .error ("unknown group name '" ++ name.asString ++ "'")
  else
    match pyInt name with
    | some i =>
      if i < 0 then
        .error ("bad character in group name '" ++ name.asString ++
          "' at position " ++ toString nameStart)
      else if (2 : Int) < i then
        .error ("invalid group reference " ++ toString i ++
          " at position " ++ toString nameStart)
      else .ok i.toNat
    | none =>
      .error ("bad character in group name '" ++ name.asString ++
        "' at position " ++ toString nameStart)

/-- `sre_parse.parse_template` (CPython 3.11), specialised to the
two-capture-group patterns of the plugin: translate a replacement
template into literal characters and group references.  The template is
processed eagerly — before any scanning — so a bad escape raises
`re.error` even when the pattern never matches.  Recognised letter
escapes are translated, unknown ASCII-letter escapes are errors, any
other escaped character keeps its backslash, `\0` begins an octal escape
of up to three octal digits (reduced modulo 256), `\1`-`\99` are group
references unless three octal digits follow the backslash, and
`\g<...>` names resolve through `resolveGroupName`.  `pos` is the
position of the next character (used only in error messages); `fuel`
always exceeds the remaining template length, so the base case is
unreachable. -/
def parse_template : Nat → Nat → List Char → Except String (List TmplItem)
  | 0, _, _ => .error "internal error: template fuel exhausted"
  | _ + 1, _, [] => .ok []
  | fuel + 1, pos, c :: rest =>
    if c = '\\' then
      match rest with
      | [] => .error ("bad escape (end of pattern) at position " ++ toString pos)
      | c1 :: rest2 =>
        if c1 = 'g' then
          match rest2 with
          | [] => .error ("missing < at position " ++ toString (pos + 2))
          | c2 :: rest3 =>
            if c2 = '<' then
              match getUntilGt (pos + 3) rest3 with
              | .error e => .error e
              | .ok (name, rest4, pos4) =>
                if name = [] then
                  .error ("missing group name at position " ++ toString (pos + 3))
                else
                  match resolveGroupName name (pos + 3) with
                  | .error e => .error e
                  | .ok idx =>
                    (parse_template fuel pos4 rest4).map
                      (fun l => .group idx :: l)
            else .error ("missing < at position " ++ toString (pos + 2))
        else if c1 = '0' then
          match rest2 with
          | [] => .ok [.lit (Char.ofNat 0)]
          | d1 :: rest3 =>
            if isOctCh d1 then
              match rest3 with
              | [] => .ok [.lit (Char.ofNat (digitVal d1 % 256))]
              | d2 :: rest4 =>
                if isOctCh d2 then
                  (parse_template fuel (pos + 4) rest4).map
                    (fun l => .lit (Char.ofNat ((digitVal d1 * 8 + digitVal d2) % 256)) :: l)
                else
                  (parse_template fuel (pos + 3) (d2 :: rest4)).map
                    (fun l => .lit (Char.ofNat (digitVal d1 % 256)) :: l)
            else
              (parse_template fuel (pos + 2) (d1 :: rest3)).map
                (fun l => .lit (Char.ofNat 0) :: l)
        else if c1.isDigit then
          match rest2 with
          | [] =>
            if 2 < digitVal c1 then
              .error ("invalid group reference " ++ toString (digitVal c1) ++
                " at position " ++ toString (pos + 1))
            else .ok [.group (digitVal c1)]
          | d2 :: rest3 =>
            if d2.isDigit then
              match rest3 with
              | d3 :: rest4 =>
                if isOctCh c1 ∧ isOctCh d2 ∧ isOctCh d3 then
                  (parse_template fuel (pos + 4) rest4).map
                    (fun l => .lit (Char.ofNat
                      ((digitVal c1 * 64 + digitVal d2 * 8 + digitVal d3) % 256)) :: l)
                else
                  .error ("invalid group reference " ++
                    toString (digitVal c1 * 10 + digitVal d2) ++
                    " at position " ++ toString (pos + 1))
              | [] =>
                .error ("invalid group reference " ++
                  toString (digitVal c1 * 10 + digitVal d2) ++
                  " at position " ++ toString (pos + 1))
            else if 2 < digitVal c1 then
              .error ("invalid group reference " ++ toString (digitVal c1) ++
                " at position " ++ toString (pos + 1))
            else
              (parse_template fuel (pos + 2) (d2 :: rest3)).map
                (fun l => .group (digitVal c1) :: l)
        else
          match sreEscapes.lookup c1 with
          | some e => (parse_template fuel (pos + 2) rest2).map (fun l => .lit e :: l)
          | none =>
            if isAsciiLetterCh c1 then
              .error ("bad escape \\" ++ c1.toString ++ " at position " ++ toString pos)
            else
              (parse_template fuel (pos + 2) rest2).map
                (fun l => .lit '\\' :: .lit c1 :: l)
    else (parse_template fuel (pos + 1) rest).map (fun l => .lit c :: l)

/-- The replacement string `r"\g<1>{}\g<2>".format(insert)` of the
source's `re.sub` call, as a character list. -/
def substTemplate (insert : String) : List Char :=
  '\\' :: 'g' :: '<' :: '1' :: '>' :: (insert.data ++ ['\\', 'g', '<', '2', '>'])

/-- The parsed form that `substTemplate` takes for a backslash-free
insert (established by `parse_template_std`). -/
def stdTmpl (insert : List Char) : List TmplItem :=
  .group 1 :: (insert.map .lit ++ [.group 2])

/-- Expand a parsed replacement template at a match: group 1 is the
captured prefix, group 2 the captured suffix, group 0 the whole match. -/
def expandTmpl (tmpl : List TmplItem) (c1 c2 c3 : List Char) : List Char :=
  tmpl.flatMap (fun item =>
    match item with
    | .lit c => [c]
    | .group 0 => c1 ++ c2 ++ c3
    | .group 1 => c1
    | .group _ => c3)

/-- The `re.sub` scan: at each position try the pattern; on a match emit
the expanded replacement template and continue after the match (consuming
one extra character after an empty match, as Python does); otherwise emit
one character and move on.  `fuel` is always called with more fuel than
characters remain. -/
def reSubLoop (p : GroupedRegex) (tmpl : List TmplItem) :
    Nat → Option Char → List Char → List Char
  | 0, _, s => s
  | n + 1, prev, s =>
    match matchTriple p prev s with
    | some (c1, c2, c3, p3, rest) =>
      if c1 ++ c2 ++ c3 = [] then
        expandTmpl tmpl c1 c2 c3 ++
          (match s with
           | [] => []
           | a :: t => a :: reSubLoop p tmpl n (some a) t)
      else expandTmpl tmpl c1 c2 c3 ++ reSubLoop p tmpl n p3 rest
    | none =>
      match s with
      | [] => []
      | a :: t => a :: reSubLoop p tmpl n (some a) t

/-- `re.sub(pattern, r"\g<1>{}\g<2>".format(insert), content,
flags=re.MULTILINE)`: the replacement template is compiled eagerly, so a
bad escape in `insert` raises `re.error` before any scanning, and known
escapes and group references in `insert` are honoured. -/
def reSub (p : GroupedRegex) (insert : String) (content : String) :
    Except String String :=
  (parse_template ((substTemplate insert).length + 1) 0 (substTemplate insert)).map
    (fun tmpl => (reSubLoop p tmpl (content.data.length + 1) none content.data).asString)

/-- `_SubPattern`: a compiled pattern value plus its mode tag. -/
structure SubPattern where
  value : GroupedRegex
  mode : String
  deriving DecidableEq, Inhabited

/-- `_substitute_version_in_text` (source lines 479-506): apply each
pattern in order over the previous output; mode `"str"` formats the
version into the replacement template, mode `"tuple"` formats the tuple
encoding, any other mode raises `ValueError`. -/
def _substitute_version_in_text (version : String) (content : String) :
    List SubPattern → Except String String
  | [] => .ok content
  | pattern :: rest =>
    if pattern.mode = "str" then
      (reSub pattern.value version content).bind
        (fun newContent => _substitute_version_in_text version newContent rest)
    else if pattern.mode = "tuple" then
      (reSub pattern.value (tupleInsert version) content).bind
        (fun newContent => _substitute_version_in_text version newContent rest)
    else
      .error ("Invalid substitution mode: " ++ pattern.mode)

/-- Character class for `\s` (ASCII fragment of Python `\s`). -/
def wsChars : List Char := [' ', '\t', '\n', '\r', '\x0b', '\x0c']

/-- Default string-mode pattern
`(^__version__\s*(?::.*?)?=\s*['"])[^'"]*(['"])` from `_default_config`. -/
def defaultStrPattern : GroupedRegex where
  g1 := seqList [Regex.bol, lits "__version__", Regex.star true (Regex.cls false wsChars),
    Regex.opt true (Regex.concat (Regex.chr ':') (Regex.star false Regex.anyc)),
    Regex.chr '=', Regex.star true (Regex.cls false wsChars),
    Regex.cls false ['\'', '"']]
  mid := Regex.star true (Regex.cls true ['\'', '"'])
  g2 := Regex.cls false ['\'', '"']

/-- Default tuple-mode pattern
`(^__version_tuple__\s*(?::.*?)?=\s*\()[^)]*(\))` from `_default_config`. -/
def defaultTuplePattern : GroupedRegex where
  g1 := seqList [Regex.bol, lits "__version_tuple__", Regex.star true (Regex.cls false wsChars),
    Regex.opt true (Regex.concat (Regex.chr ':') (Regex.star false Regex.anyc)),
    Regex.chr '=', Regex.star true (Regex.cls false wsChars),
    Regex.chr '(']
  mid := Regex.star true (Regex.cls true [')'])
  g2 := Regex.chr ')'

/-- The default `substitution.patterns` list of `_default_config`, after
`_SubPattern.from_config` (a bare string gets mode `"str"`). -/
def defaultPatterns : List SubPattern :=
  [⟨defaultStrPattern, "str"⟩, ⟨defaultTuplePattern, "tuple"⟩]

/-! ### Override / environment resolution -/

def _OVERRIDE_ENV : String := "POETRY_DYNAMIC_VERSIONING_OVERRIDE"
def _BYPASS_ENV : String := "POETRY_DYNAMIC_VERSIONING_BYPASS"

/-- Environment mapping lookup (`env.get`). -/
def envGet (env : List (String × String)) (k : String) : Option String :=
  (env.find? (fun e => e.1 = k)).map (fun e => e.2)

/-- The `for pair in pairs` loop of `_get_override_version`: skip pairs
without `=`; split the rest at the first `=`; return the stripped value of
the first pair whose stripped key equals the project name. -/
def overrideFirstMatch (name : String) : List (List Char) → Option String
  | [] => none
  | pair :: rest =>
    if pair.contains '=' then
      match pySplitOnce '=' pair [] with
      | [k, v] =>
        if (pyStrip k).asString = name then some (pyStrip v).asString
        else overrideFirstMatch name rest
      | _ => overrideFirstMatch name rest
    else overrideFirstMatch name rest

/-- `_get_override_version` (source lines 345-363). -/
def _get_override_version (name : Option String) (env : List (String × String)) :
    Option String :=
  let fromOverride :=
    match name with
    | none => none
    | some n =>
      match envGet env _OVERRIDE_ENV with
      | none => none
      | some raw => overrideFirstMatch n (pySplitChar ',' raw.data)
  match fromOverride with
  | some v => some v
  | none => envGet env _BYPASS_ENV

/-! ### Raw configuration values and validation

`_validate_config_section` walks the raw (tomlkit) configuration mapping
against the hardcoded default tree.  Raw values are embedded as
`TomlValue`; a section is an association list (tomlkit mappings preserve
order and have no duplicate keys).  Python truthiness, `in` membership and
`[...]` subscription are modelled exactly, including the `TypeError`s they
raise on non-container values. -/

inductive TomlValue where
  | str (s : String) : TomlValue
  | bool (b : Bool) : TomlValue
  | int (n : Int) : TomlValue
  | nil : TomlValue
  | list (xs : List TomlValue) : TomlValue
  | table (kvs : List (String × TomlValue)) : TomlValue

/-- Python truthiness of a raw value. -/
def pyTruthy : TomlValue → Bool
  | .str s => s ≠ ""
  | .bool b => b
  | .int n => n ≠ 0
  | .nil => false
  | .list xs => ¬ xs.isEmpty
  | .table kvs => ¬ kvs.isEmpty

/-- Python substring test `needle in hay`. -/
def strContains (hay needle : String) : Bool :=
  hay.data.tails.any (fun t => needle.data.isPrefixOf t)

/-- Python `key in container` for a string key: mapping-key membership on
a dict, substring on a string, element equality on a list; anything else
is not iterable and raises `TypeError`. -/
def pyContains (key : String) : TomlValue → Except String Bool
  | .table kvs => .ok (kvs.any (fun e => e.1 = key))
  | .str s => .ok (strContains s key)
  | .list xs =>
    .ok (xs.any (fun v => match v with | .str s => s = key | _ => false))
  | _ => .error "TypeError: argument is not iterable"

/-- Python `container[key]` for a string key: dict subscription; anything
else raises `TypeError`. -/
def pyGetItem (v : TomlValue) (key : String) : Except String TomlValue :=
  match v with
  | .table kvs =>
    match kvs.find? (fun e => e.1 = key) with
    | some e => .ok e.2
    | none => .error "KeyError"
  | _ => .error "TypeError: value is not subscriptable by string"

/-- Key as printed in an `Unknown key` error: quoted when it contains a
dot. -/
def escapedKey (key : String) : String :=
  if key.data.contains '.' then "\"" ++ key ++ "\"" else key

mutual

/-- `_validate_config_section` (source lines 299-314): an empty/falsy
default schema reports nothing; otherwise each user key missing from the
default at this level yields one `Unknown key: <dotted.path>` error, and a
user value that is itself a mapping is recursed into (the source checks
`isinstance(value, dict)` twice — it never checks that the default's value
is a mapping). -/
def _validate_config_section (config : List (String × TomlValue)) (dflt : TomlValue)
    (path : List String) : Except String (List String) :=
  if ¬ pyTruthy dflt then .ok [] else validateItems config dflt path

/-- The `for (key, value) in config.items()` loop of
`_validate_config_section`. -/
def validateItems (config : List (String × TomlValue)) (dflt : TomlValue)
    (path : List String) : Except String (List String) :=
  match config with
  | [] => .ok []
  | (key, value) :: rest => do
    let isIn ← pyContains key dflt
    if ¬ isIn then
      let es ← validateItems rest dflt path
      pure (("Unknown key: " ++ pyJoin "." (path ++ [escapedKey key])) :: es)
    else
      match value with
      | .table kvs => do
        let dv ← pyGetItem dflt key
        let sub ← _validate_config_section kvs dv (path ++ [key])
        let es ← validateItems rest dflt path
        pure (sub ++ es)
      | _ => validateItems rest dflt path

end

/-- The `tool.poetry-dynamic-versioning` section of `_default_config`
(source lines 172-207) as a raw value tree. -/
def defaultPDVSection : List (String × TomlValue) :=
  [("enable", .bool false),
   ("vcs", .str "any"),
   ("dirty", .bool false),
   ("pattern", .nil),
   ("latest-tag", .bool false),
   ("substitution", .table
     [("files", .list [.str "*.py", .str "*/__init__.py",
        .str "*/__version__.py", .str "*/_version.py"]),
      ("patterns", .list
        [.str "(^__version__\\s*(?::.*?)?=\\s*['\\\"])[^'\\\"]*(['\\\"])",
         .table [("value", .str "(^__version_tuple__\\s*(?::.*?)?=\\s*\\()[^)]*(\\))"),
                 ("mode", .str "tuple")]]),
      ("folders", .list [])]),
   ("files", .table []),
   ("style", .nil),
   ("metadata", .nil),
   ("format", .nil),
   ("format-jinja", .nil),
   ("format-jinja-imports", .list []),
   ("bump", .bool false),
   ("tagged-metadata", .bool false),
   ("full-commit", .bool false),
   ("tag-branch", .nil),
   ("tag-dir", .str "tags"),
   ("strict", .bool false),
   ("fix-shallow-repository", .bool false)]

/-- `_default_config` (source lines 172-207). -/
def _default_config : TomlValue :=
  .table [("tool", .table [("poetry-dynamic-versioning", .table defaultPDVSection)])]

/-- Modelled from the spec: the validation contract of section 4.1 — any
key in the user section not present in the default schema at the same
nesting level is reported as `Unknown key: <dotted.path>`; keys whose
value is a nested mapping in both the user section and the default are
recursed into; leaves are not checked further.  Used only to exhibit the
divergence of the source from this contract. -/
def validateSectionSpec (config : List (String × TomlValue)) (dfltKvs : List (String × TomlValue))
    (path : List String) : List String :=
  match config with
  | [] => []
  | (key, value) :: rest =>
    match (dfltKvs.find? (fun e => e.1 = key)).map (fun e => e.2) with
    | none =>
      ("Unknown key: " ++ pyJoin "." (path ++ [escapedKey key])) ::
        validateSectionSpec rest dfltKvs path
    | some dv =>
      match value, dv with
      | .table kvs, .table dkvs =>
        validateSectionSpec kvs dkvs (path ++ [key]) ++ validateSectionSpec rest dfltKvs path
      | _, _ => validateSectionSpec rest dfltKvs path

/-! ### Filesystem and manifest model

Files and directories are an association list from absolute paths
(segment lists) to entries.  A manifest (`pyproject.toml`) is held as a
structured `TomlDoc`: `tomlkit` parsing/serialization is an external,
format-preserving collaborator, so the fields the source reads and writes
(`tool.poetry.name`, `tool.poetry.version`,
`tool.poetry-dynamic-versioning.enable`, and the plugin's `files` section
as consulted by `_get_config` during revert) are modelled as record
fields, with `other` standing for all remaining preserved content.
Reading a manifest as plain text (substituting into the manifest itself)
is outside the model and surfaces as a read error.  `Path.resolve()` is
the identity here: paths are already absolute and canonical. -/

abbrev Path := List String

structure FileInfo where
  initialContent : Option String
  persistentSubstitution : Option Bool
  deriving DecidableEq, Inhabited

structure TomlDoc where
  name : String
  version : String
  enable : Bool
  files : List (String × FileInfo)
  other : String
  deriving DecidableEq, Inhabited

inductive Entry where
  | text (s : String) : Entry
  | doc (d : TomlDoc) : Entry
  | dir : Entry
  deriving DecidableEq, Inhabited

structure FS where
  entries : List (Path × Entry)
  deriving DecidableEq, Inhabited

def FS.lookup (fs : FS) (p : Path) : Option Entry :=
  (fs.entries.find? (fun e => e.1 = p)).map (fun e => e.2)

def setAssoc : List (Path × Entry) → Path → Entry → List (Path × Entry)
  | [], p, v => [(p, v)]
  | e :: rest, p, v => if e.1 = p then (p, v) :: rest else e :: setAssoc rest p v

def FS.set (fs : FS) (p : Path) (v : Entry) : FS := ⟨setAssoc fs.entries p v⟩

def parentPath (p : Path) : Path := p.dropLast

/-- `Path.exists()`: the root always exists. -/
def pathExists (fs : FS) (p : Path) : Bool := (fs.lookup p).isSome ∨ p = []

def isDir (fs : FS) (p : Path) : Bool := p = [] ∨ fs.lookup p = some .dir

def readText (fs : FS) (p : Path) : Except String String :=
  match fs.lookup p with
  | some (.text s) => .ok s
  | some (.doc _) => .error "read_text on a structured manifest (outside model)"
  | some .dir => .error "IsADirectoryError"
  | none => .error "FileNotFoundError"

def readDoc (fs : FS) (p : Path) : Except String TomlDoc :=
  match fs.lookup p with
  | some (.doc d) => .ok d
  | some (.text _) => .error "tomlkit parse of unstructured text (outside model)"
  | some .dir => .error "IsADirectoryError"
  | none => .error "FileNotFoundError"

def writeEntry (fs : FS) (p : Path) (v : Entry) : Except String FS :=
  if fs.lookup p = some Entry.dir then .error "IsADirectoryError"
  else if isDir fs (parentPath p) then .ok (fs.set p v)
  else .error "FileNotFoundError"

def writeText (fs : FS) (p : Path) (s : String) : Except String FS :=
  writeEntry fs p (.text s)

def writeDoc (fs : FS) (p : Path) (d : TomlDoc) : Except String FS :=
  writeEntry fs p (.doc d)

/-- `Path.mkdir()` (no `parents=True`): the immediate parent must already
exist, the target must not. -/
def mkdir (fs : FS) (p : Path) : Except String FS :=
  if pathExists fs p then .error "FileExistsError"
  else if isDir fs (parentPath p) then .ok (fs.set p .dir)
  else .error "FileNotFoundError"

/-! Glob matching for `folder.path.glob(file_glob)`: `*` within a segment
matches any character run; a multi-segment pattern must match the path's
remaining segments one-to-one.  (`**`, `?` and bracket classes are not
used by the configuration defaults and are outside the model.)  Matches
enumerate existing entries in filesystem order. -/

def segMatch : List Char → List Char → Bool
  | [], s => s.isEmpty
  | '*' :: ps, s => s.tails.any (fun t => segMatch ps t)
  | c :: ps, s =>
    match s with
    | [] => false
    | a :: t => a = c ∧ segMatch ps t

def globMatch (psegs : List String) (segs : List String) : Bool :=
  psegs.length = segs.length ∧
    (psegs.zip segs).all (fun e => segMatch e.1.data e.2.data)

def globFiles (fs : FS) (root : Path) (pat : String) : List Path :=
  let psegs := splitPathString pat
  fs.entries.filterMap (fun e =>
    if e.1.take root.length = root ∧ globMatch psegs (e.1.drop root.length) then
      some e.1
    else none)

/-! ### Structured configuration, folder scopes and the project registry -/

/-- One `substitution.folders` entry, after `_get_config` initialized the
optional keys.  Patterns are already compiled (`_SubPattern.from_config`
applied). -/
structure SubFolderCfg where
  path : String
  files : Option (List String)
  patterns : Option (List SubPattern)
  deriving Inhabited

structure Substitution where
  files : List String
  patterns : List SubPattern
  folders : List SubFolderCfg
  deriving Inhabited

/-- `_Config`, restricted to the fields the embedded operations read.
`style`, `metadata`, `format`, `format-jinja` and `format-jinja-imports`
only feed the serialization collaborator and are folded into it. -/
structure Config where
  enable : Bool
  vcs : String
  dirty : Bool
  pattern : Option String
  latestTag : Bool
  substitution : Substitution
  files : List (String × FileInfo)
  bump : Bool
  taggedMetadata : Bool
  fullCommit : Bool
  tagBranch : Option String
  tagDir : String
  strict : Bool
  fixShallowRepository : Bool
  deriving Inhabited

structure FolderConfig where
  path : Path
  files : List String
  patterns : List SubPattern
  deriving Inhabited

/-- `_FolderConfig.from_config` (source lines 154-169): the top-level
scope first, then each configured folder, inheriting the top-level globs
and patterns when it supplies none. -/
def FolderConfig.fromConfig (config : Config) (root : Path) : List FolderConfig :=
  let files := config.substitution.files
  let patterns := config.substitution.patterns
  let main : FolderConfig := ⟨root, files, patterns⟩
  main :: config.substitution.folders.map (fun x =>
    ⟨root ++ splitPathString x.path, x.files.getD files, x.patterns.getD patterns⟩)

/-- `_ProjectState`. -/
structure ProjectState where
  path : Path
  originalVersion : String
  version : String
  substitutions : List (Path × String)
  deriving DecidableEq, Inhabited

/-- `_State`: the process-wide registry (the `patched_core_poetry_create`
flag belongs to the out-of-scope hook-installation step). -/
structure PluginState where
  cliMode : Bool
  projects : List (String × ProjectState)
  deriving DecidableEq, Inhabited

def lookupProj (projects : List (String × ProjectState)) (name : String) :
    Option ProjectState :=
  (projects.find? (fun e => e.1 = name)).map (fun e => e.2)

/-- `_state.projects[name].substitutions[file] = original_content`:
dict-style replace-or-append on the named project's substitution map. -/
def recordSub (st : PluginState) (name : String) (file : Path) (content : String) :
    PluginState :=
  ⟨st.cliMode, st.projects.map (fun e =>
    if e.1 = name then
      (e.1, { e.2 with substitutions :=
        if e.2.substitutions.any (fun s => s.1 = file) then
          e.2.substitutions.map (fun s => if s.1 = file then (file, content) else s)
        else e.2.substitutions ++ [(file, content)] })
    else e)⟩

/-! ### Transactional apply / substitute / revert -/

/-- The glob-collection phase of `_substitute_version` (source lines
461-469): expand every folder's globs, first scope claiming a file wins. -/
def collectFiles (fs : FS) (folders : List FolderConfig) : List (Path × FolderConfig) :=
  folders.foldl (fun acc folder =>
    folder.files.foldl (fun acc fileGlob =>
      (globFiles fs folder.path fileGlob).foldl (fun acc m =>
        if acc.any (fun e => e.1 = m) then acc else acc ++ [(m, folder)]) acc) acc) []

/-- The `for file, config in files.items()` loop of `_substitute_version`
(source lines 471-476). -/
def substFilesLoop (name : String) (version : String) :
    List (Path × FolderConfig) → PluginState → FS → Except String (PluginState × FS)
  | [], st, fs => .ok (st, fs)
  | (file, folderCfg) :: rest, st, fs => do
    let originalContent ← readText fs file
    let newContent ← _substitute_version_in_text version originalContent folderCfg.patterns
    if originalContent ≠ newContent then
      let st := recordSub st name file originalContent
      let fs ← writeText fs file newContent
      substFilesLoop name version rest st fs
    else substFilesLoop name version rest st fs

/-- `_substitute_version` (source lines 456-476). -/
def _substitute_version (name : String) (version : String)
    (folders : List FolderConfig) (st : PluginState) (fs : FS) :
    Except String (PluginState × FS) :=
  match lookupProj st.projects name with
  | none => .error "KeyError"
  | some proj =>
    if proj.substitutions ≠ [] then .ok (st, fs)
    else substFilesLoop name version (collectFiles fs folders) st fs

/-- Characters `textwrap.dedent` treats as indentation. -/
def isIndentChar (c : Char) : Bool := c = ' ' ∨ c = '\t'

def commonPre : List Char → List Char → List Char
  | x :: xs, y :: ys => if x = y then x :: commonPre xs ys else []
  | _, _ => []

/-- The margin-computation loop of `textwrap.dedent`. -/
def dedentMargin : List (List Char) → List Char
  | [] => []
  | i :: rest => rest.foldl (fun margin indent =>
      if margin.isPrefixOf indent then margin
      else if indent.isPrefixOf margin then indent
      else commonPre margin indent) i

/-- `textwrap.dedent`: whitespace-only lines are normalized to empty, the
longest common `[ \t]` margin of the remaining lines is computed, and
every line starting with that margin loses it. -/
def pyDedent (text : String) : String :=
  let lines := pySplitChar '\n' text.data
  let lines := lines.map (fun l => if l ≠ [] ∧ l.all isIndentChar then [] else l)
  let indents := lines.filterMap (fun l =>
    if (l.dropWhile isIndentChar) ≠ [] then some (l.takeWhile isIndentChar) else none)
  let margin := dedentMargin indents
  let lines := lines.map (fun l =>
    if margin.isPrefixOf l then l.drop margin.length else l)
  pyJoin "\n" (lines.map List.asString)

/-- `if not full_file.parent.exists(): full_file.parent.mkdir()` (source
lines 530-531). -/
def ensureParentDir (fs : FS) (fullFile : Path) : Except String FS :=
  if ¬ pathExists fs (parentPath fullFile) then mkdir fs (parentPath fullFile)
  else pure fs

/-- The extra-files loop of `_apply_version` (source lines 526-533): for
every configured file with initial content, create the immediate parent
directory when missing and write the dedented initial content
(unconditionally — the source never checks whether the file exists). -/
def applyExtraFiles : List (String × FileInfo) → Path → FS → Except String FS
  | [], _, fs => .ok fs
  | (fileName, fileInfo) :: rest, parentDir, fs =>
    match fileInfo.initialContent with
    | none => applyExtraFiles rest parentDir fs
    | some ic => do
      let fullFile := parentDir ++ splitPathString fileName
      let fs ← ensureParentDir fs fullFile
      let fs ← writeText fs fullFile (pyDedent ic)
      applyExtraFiles rest parentDir fs

/-- `_apply_version` (source lines 509-539). -/
def _apply_version (version : String) (config : Config) (pyprojectPath : Path)
    (retain : Bool) (st : PluginState) (fs : FS) : Except String (PluginState × FS) := do
  let pyproject ← readDoc fs pyprojectPath
  let pyproject := { pyproject with version := version }
  let pyproject := if ¬ retain ∧ ¬ st.cliMode then { pyproject with enable := false }
    else pyproject
  let fs ← writeDoc fs pyprojectPath pyproject
  let name := pyproject.name
  let fs ← applyExtraFiles config.files (parentPath pyprojectPath) fs
  _substitute_version name version
    (FolderConfig.fromConfig config (parentPath pyprojectPath)) st fs

/-- The persistent-file list computed by `_revert_version` from the
re-read manifest's configuration (`_get_config(pyproject)["files"]`). -/
def persistentPaths (cfgFiles : List (String × FileInfo)) (manifestPath : Path) :
    List Path :=
  (cfgFiles.filter (fun e => e.2.persistentSubstitution = some true)).map
    (fun e => parentPath manifestPath ++ splitPathString e.1)

/-- The restore loop of `_revert_version` (source lines 603-607). -/
def restoreLoop (persistent : List Path) : List (Path × String) → FS → Except String FS
  | [], fs => .ok fs
  | (file, content) :: rest, fs =>
    if file ∈ persistent then restoreLoop persistent rest fs
    else do
      let fs ← writeText fs file content
      restoreLoop persistent rest fs

/-- The `if state.substitutions:` block of `_revert_version` (source
lines 595-610): compute the persistent set from the re-read
configuration, restore every non-persistent recorded file, and re-read
the manifest (a substitution may have touched it). -/
def revertRestore (stateEntry : ProjectState) (pyproject : TomlDoc) (fs : FS) :
    Except String (TomlDoc × FS) :=
  if stateEntry.substitutions ≠ [] then do
    let persistent := persistentPaths pyproject.files stateEntry.path
    let fs ← restoreLoop persistent stateEntry.substitutions fs
    let pyproject ← readDoc fs stateEntry.path
    pure (pyproject, fs)
  else pure (pyproject, fs)

/-- One iteration of `_revert_version`'s project loop (source lines
592-617). -/
def revertProject (retain : Bool) (cliMode : Bool) (stateEntry : ProjectState)
    (fs : FS) : Except String FS := do
  let pyproject ← readDoc fs stateEntry.path
  let pfPair ← revertRestore stateEntry pyproject fs
  let pyproject := { pfPair.1 with version := stateEntry.originalVersion }
  let pyproject := if ¬ retain ∧ ¬ cliMode then { pyproject with enable := true }
    else pyproject
  writeDoc pfPair.2 stateEntry.path pyproject

def revertLoop (retain : Bool) (cliMode : Bool) :
    List (String × ProjectState) → FS → Except String FS
  | [], fs => .ok fs
  | (_, stateEntry) :: rest, fs => do
    let fs ← revertProject retain cliMode stateEntry fs
    revertLoop retain cliMode rest fs

/-- `_revert_version` (source lines 591-619). -/
def _revert_version (retain : Bool) (st : PluginState) (fs : FS) :
    Except String (PluginState × FS) := do
  let fs ← revertLoop retain st.cliMode st.projects fs
  pure ({ st with projects := [] }, fs)

/-! ### Version resolution (VCS collaborator and retry policy)

`dunamai.Version.from_vcs` is the VCS-introspection collaborator: it is a
parameter `fromVcs unshallowed strict` (the repository may have been
unshallowed by the time of the second query).  `git fetch --unshallow` is
the parameter `runUnshallow`.  Serialization (direct or Jinja-template
based) only consumes the final version object and is the collaborator
parameter `serialize`.  Alongside its result, `_get_version` returns the
trace of collaborator calls it made, in order. -/

inductive VcsKind where
  | git | mercurial | darcs | subversion | bazaar | fossil | pijul | anyVcs
  deriving DecidableEq, Inhabited

/-- `dunamai.Vcs(config["vcs"])`: raises `ValueError` on an unknown name. -/
def parseVcs : String → Except String VcsKind
  | "git" => .ok .git
  | "mercurial" => .ok .mercurial
  | "darcs" => .ok .darcs
  | "subversion" => .ok .subversion
  | "bazaar" => .ok .bazaar
  | "fossil" => .ok .fossil
  | "pijul" => .ok .pijul
  | "any" => .ok .anyVcs
  | _ => .error "ValueError: invalid Vcs"

/-- `dunamai.Concern` (its only member). -/
inductive VcsConcern where
  | shallowRepository
  deriving DecidableEq, Inhabited

/-- The fields of a `dunamai.Version` object that `_get_version`'s control
flow inspects (the rest only feeds the serialization collaborator). -/
structure VersionObj where
  concerns : List VcsConcern
  vcs : VcsKind
  deriving DecidableEq, Inhabited

inductive VcsEvent where
  | query (strict : Bool) : VcsEvent
  | unshallow : VcsEvent
  deriving DecidableEq, Inhabited

def isQueryEvent : VcsEvent → Bool
  | .query _ => true
  | .unshallow => false

/-- `_get_version_from_dunamai` (source lines 366-377): query with the
configured strict flag unless an explicit override is given. -/
def _get_version_from_dunamai (fromVcs : Bool → Bool → Except String VersionObj)
    (unshallowed : Bool) (config : Config) (strict : Option Bool) :
    Except String VersionObj :=
  fromVcs unshallowed (strict.getD config.strict)

/-- `_get_version` (source lines 380-453), with the serialization tail
delegated to the collaborator.  The `retry` variable of the source is
unfolded into branches: `retry` starts as `config.strict`, is forced to
`true` (after unshallowing) when the first result carries the
shallow-repository concern on git, and a retry re-queries with the
configured strict flag. -/
def _get_version (config : Config) (name : Option String)
    (env : List (String × String))
    (fromVcs : Bool → Bool → Except String VersionObj)
    (runUnshallow : Except String Unit)
    (serialize : VersionObj → Except String String) :
    Except String String × List VcsEvent :=
  match _get_override_version name env with
  | some override => (.ok override, [])
  | none =>
    match parseVcs config.vcs with
    | .error e => (.error e, [])
    | .ok _ =>
      if config.fixShallowRepository then
        match _get_version_from_dunamai fromVcs false config (some false) with
        | .error e => (.error e, [.query false])
        | .ok version =>
          if VcsConcern.shallowRepository ∈ version.concerns ∧ version.vcs = VcsKind.git then
            match runUnshallow with
            | .error e => (.error e, [.query false, .unshallow])
            | .ok _ =>
              match _get_version_from_dunamai fromVcs true config none with
              | .error e => (.error e, [.query false, .unshallow, .query config.strict])
              | .ok version2 =>
                (serialize version2, [.query false, .unshallow, .query config.strict])
          else if config.strict then
            match _get_version_from_dunamai fromVcs false config none with
            | .error e => (.error e, [.query false, .query config.strict])
            | .ok version2 => (serialize version2, [.query false, .query config.strict])
          else (serialize version, [.query false])
      else
        match _get_version_from_dunamai fromVcs false config none with
        | .error e => (.error e, [.query config.strict])
        | .ok version => (serialize version, [.query config.strict])

/-! ### Concrete fixtures for counterexamples and witnesses -/

/-- A user pattern `(a)(b)` (empty middle), string mode. -/
def exPatternAB : SubPattern := ⟨⟨.chr 'a', .eps, .chr 'b'⟩, "str"⟩

/-- A user pattern matching a `__version__ = "..."` assignment without
anchors. -/
def exVpyPattern : SubPattern :=
  ⟨⟨lits "__version__ = \"", .star true (.cls true ['"']), .chr '"'⟩, "str"⟩

def exMPath : Path := ["proj", "pyproject.toml"]

/-- A baseline configuration with empty substitution scope and no extra
files. -/
def exCfgBase : Config :=
  { enable := true, vcs := "any", dirty := false, pattern := none, latestTag := false,
    substitution := ⟨[], [], []⟩, files := [], bump := false, taggedMetadata := false,
    fullCommit := false, tagBranch := none, tagDir := "tags", strict := false,
    fixShallowRepository := false }

/-- Registry holding one freshly created project entry (as
`_get_and_apply_version` creates it just before calling `_apply_version`). -/
def exStFresh : PluginState := ⟨false, [("proj", ⟨exMPath, "0.1.0", "9.9", []⟩)]⟩

/-- C1 fixture: the extra file `v.py` has initial content, is a
substitution target, and already exists before apply with content `PRE`. -/
def exDocC1 : TomlDoc :=
  ⟨"proj", "0.1.0", true, [("v.py", ⟨some "__version__ = \"0\"\n", none⟩)], "rest"⟩

def exSubC1 : Substitution := ⟨["v.py"], [exVpyPattern], []⟩

def exFilesC1 : List (String × FileInfo) :=
  [("v.py", ⟨some "__version__ = \"0\"\n", none⟩)]

def exCfgC1 : Config :=
  { exCfgBase with substitution := exSubC1, files := exFilesC1 }

def exFsC1 : FS :=
  ⟨[(["proj"], .dir), (exMPath, .doc exDocC1), (["proj", "v.py"], .text "PRE")]⟩

/-- The registry and filesystem `_apply_version` produces on the C1
fixture. -/
def exStC1After : PluginState :=
  ⟨false, [("proj", ⟨exMPath, "0.1.0", "9.9",
    [(["proj", "v.py"], "__version__ = \"0\"\n")]⟩)]⟩

def exFsC1After : FS :=
  ⟨[(["proj"], .dir),
    (exMPath, .doc ⟨"proj", "9.9", false,
      [("v.py", ⟨some "__version__ = \"0\"\n", none⟩)], "rest"⟩),
    (["proj", "v.py"], .text "__version__ = \"9.9\"\n")]⟩

def exFsC1Final : FS :=
  ⟨[(["proj"], .dir),
    (exMPath, .doc ⟨"proj", "0.1.0", true,
      [("v.py", ⟨some "__version__ = \"0\"\n", none⟩)], "rest"⟩),
    (["proj", "v.py"], .text "__version__ = \"0\"\n")]⟩

/-- C6 fixture: the extra file `a.txt` already exists with content `old`. -/
def exDocC6 : TomlDoc :=
  ⟨"proj", "0.1.0", true, [("a.txt", ⟨some "hi", none⟩)], "rest"⟩

def exCfgC6 : Config := { exCfgBase with files := [("a.txt", ⟨some "hi", none⟩)] }

def exFsC6 : FS :=
  ⟨[(["proj"], .dir), (exMPath, .doc exDocC6), (["proj", "a.txt"], .text "old")]⟩

/-- C7 fixture: registry entry already carrying a recorded substitution. -/
def exStC7 : PluginState :=
  ⟨false, [("proj", ⟨exMPath, "0.1.0", "9.9", [(["proj", "v.py"], "orig")]⟩)]⟩

/-- Filesystem `_apply_version` produces on the C6 fixture: `a.txt` is
overwritten with the dedented initial content although it already had
content. -/
def exFsC6After : FS :=
  ⟨[(["proj"], .dir),
    (exMPath, .doc ⟨"proj", "9.9", false, [("a.txt", ⟨some "hi", none⟩)], "rest"⟩),
    (["proj", "a.txt"], .text "hi")]⟩

/-- Small fixtures for the extra-files witness. -/
def exFsW6 : FS := ⟨[(["proj"], .dir), (["proj", "a.txt"], .text "old")]⟩

def exFsW6After : FS := ⟨[(["proj"], .dir), (["proj", "a.txt"], .text "hi")]⟩

/-- C7 fixtures: a second apply on a registry that already holds recorded
substitutions; `keep.py` is an unrelated existing file. -/
def exFsC7Start : FS :=
  ⟨[(["proj"], .dir), (exMPath, .doc exDocC1), (["proj", "v.py"], .text "PRE"),
    (["proj", "keep.py"], .text "KEEP")]⟩

def exFsC7After : FS :=
  ⟨[(["proj"], .dir),
    (exMPath, .doc ⟨"proj", "9.8", false,
      [("v.py", ⟨some "__version__ = \"0\"\n", none⟩)], "rest"⟩),
    (["proj", "v.py"], .text "__version__ = \"0\"\n"),
    (["proj", "keep.py"], .text "KEEP")]⟩

/-- C9 fixture: shallow-fix enabled on a git repository; the oracle
reports the shallow concern until unshallowed. -/
def exCfgC9 : Config := { exCfgBase with vcs := "git", fixShallowRepository := true }

def exOracleShallow : Bool → Bool → Except String VersionObj :=
  fun unshallowed _ =>
    .ok ⟨if unshallowed then [] else [.shallowRepository], .git⟩

/-! ### Helper lemmas -/

theorem exceptBindOk {α β : Type} {e : Except String α} {k : α → Except String β} {r : β} :
    (e >>= k) = .ok r ↔ ∃ a, e = .ok a ∧ k a = .ok r := by
  cases e <;> simp [Bind.bind, Except.bind]

theorem lookup_set (fs : FS) (p : Path) (v : Entry) (q : Path) :
    (fs.set p v).lookup q = if q = p then some v else fs.lookup q := by
  obtain ⟨entries⟩ := fs
  simp only [FS.set, FS.lookup]
  induction entries with
  | nil =>
    by_cases h : q = p
    · subst h; simp [setAssoc, List.find?]
    · have h' : ¬ (p = q) := fun hh => h hh.symm
      simp [setAssoc, List.find?, h, h']
  | cons e rest ih =>
    by_cases he : e.1 = p
    · by_cases hq : q = p
      · subst hq; simp [setAssoc, he, List.find?]
      · have h' : ¬ (p = q) := fun hh => hq hh.symm
        have hne : ¬ (e.1 = q) := by rw [he]; exact h'
        simp [setAssoc, he, List.find?, h', hne, hq]
    · by_cases heq : e.1 = q
      · have hq : ¬ (q = p) := by
          intro hh; exact he (by rw [heq, hh])
        simp [setAssoc, he, List.find?, heq, hq]
      · simp [setAssoc, he, List.find?, heq]
        exact ih

theorem writeEntry_ok {fs fs' : FS} {p : Path} {v : Entry}
    (h : writeEntry fs p v = .ok fs') :
    (∀ q, fs'.lookup q = if q = p then some v else fs.lookup q)
    ∧ isDir fs (parentPath p) = true ∧ fs.lookup p ≠ some Entry.dir := by
  unfold writeEntry at h
  by_cases h1 : fs.lookup p = some Entry.dir
  · simp [h1] at h
  · by_cases h2 : isDir fs (parentPath p)
    · simp [h1, h2] at h
      subst h
      exact ⟨fun q => lookup_set fs p v q, h2, h1⟩
    · simp [h1, h2] at h

theorem mkdir_ok {fs fs' : FS} {p : Path} (h : mkdir fs p = .ok fs') :
    (∀ q, fs'.lookup q = if q = p then some .dir else fs.lookup q)
    ∧ pathExists fs p = false := by
  unfold mkdir at h
  by_cases h1 : pathExists fs p
  · simp [h1] at h
  · by_cases h2 : isDir fs (parentPath p)
    · simp [h1, h2] at h
      subst h
      exact ⟨fun q => lookup_set fs p .dir q, by simpa using h1⟩
    · simp [h1, h2] at h

/-- A generic foldl invariant-preservation helper. -/
theorem foldlPreserve {α β : Type} (P : β → Prop) (f : β → α → β)
    (h : ∀ b a, P b → P (f b a)) : ∀ (l : List α) (b : β), P b → P (l.foldl f b) := by
  intro l
  induction l with
  | nil => intro b hb; exact hb
  | cons a rest ih => intro b hb; exact ih (f b a) (h b a hb)

/-- The collected substitution file map has no duplicate file keys (first
scope wins, later claims are dropped). -/
theorem collectFiles_nodup (fs : FS) (folders : List FolderConfig) :
    ((collectFiles fs folders).map Prod.fst).Nodup := by
  have inner : ∀ (folder : FolderConfig) (ms : List Path)
      (acc : List (Path × FolderConfig)), (acc.map Prod.fst).Nodup →
      ((ms.foldl (fun acc m =>
        if acc.any (fun e => e.1 = m) then acc else acc ++ [(m, folder)]) acc).map
          Prod.fst).Nodup := by
    intro folder ms
    refine foldlPreserve _ _ ?_ ms
    intro acc m hacc
    by_cases hm : acc.any (fun e => e.1 = m)
    · simpa [hm] using hacc
    · have hnotin : m ∉ acc.map Prod.fst := by
        intro hmem
        obtain ⟨e, he, hfst⟩ := List.mem_map.mp hmem
        exact hm (List.any_eq_true.mpr ⟨e, he, by simp [hfst]⟩)
      simp only [hm, if_false, Bool.false_eq_true, List.map_append]
      simpa [List.nodup_append] using ⟨hacc, by simpa using hnotin⟩
  have middle : ∀ (folder : FolderConfig) (globs : List String)
      (acc : List (Path × FolderConfig)), (acc.map Prod.fst).Nodup →
      ((globs.foldl (fun acc fileGlob =>
        (globFiles fs folder.path fileGlob).foldl (fun acc m =>
          if acc.any (fun e => e.1 = m) then acc else acc ++ [(m, folder)]) acc) acc).map
            Prod.fst).Nodup := by
    intro folder globs
    refine foldlPreserve _ _ ?_ globs
    intro acc g hacc
    exact inner folder (globFiles fs folder.path g) acc hacc
  have outer : ∀ (fl : List FolderConfig) (acc : List (Path × FolderConfig)),
      (acc.map Prod.fst).Nodup →
      ((fl.foldl (fun acc folder =>
        folder.files.foldl (fun acc fileGlob =>
          (globFiles fs folder.path fileGlob).foldl (fun acc m =>
            if acc.any (fun e => e.1 = m) then acc else acc ++ [(m, folder)]) acc) acc)
          acc).map Prod.fst).Nodup := by
    intro fl
    refine foldlPreserve _ _ ?_ fl
    intro acc folder hacc
    exact middle folder folder.files acc hacc
  exact outer folders [] (by simp)

theorem pySplitChar_ne_nil (sep : Char) (l : List Char) : pySplitChar sep l ≠ [] := by
  cases l with
  | nil => simp [pySplitChar]
  | cons c rest =>
    simp only [pySplitChar]
    by_cases h : c = sep
    · simp [h]
    · simp only [h, if_false]
      cases pySplitChar sep rest <;> simp

theorem splitPath_ne_nil (s : String) : splitPathString s ≠ [] := by
  unfold splitPathString
  intro h
  exact pySplitChar_ne_nil '/' s.data (by simpa using h)

theorem appendSplit_ne_nil (parentDir : Path) (s : String) :
    parentDir ++ splitPathString s ≠ [] := by
  intro h
  rcases List.append_eq_nil.mp h with ⟨-, h2⟩
  exact splitPath_ne_nil s h2

theorem parentPath_ne {p : Path} (h : p ≠ []) : parentPath p ≠ p := by
  intro hh
  have hlen := congrArg List.length hh
  simp only [parentPath, List.length_dropLast] at hlen
  have hpos : 0 < p.length := List.length_pos.mpr h
  omega

theorem ensureParentDir_ok {fs fs' : FS} {fullFile : Path}
    (h : ensureParentDir fs fullFile = .ok fs') :
    (∀ q, q ≠ parentPath fullFile → fs'.lookup q = fs.lookup q)
    ∧ (∀ q v, fs.lookup q = some v → fs'.lookup q = some v) := by
  unfold ensureParentDir at h
  by_cases hex : pathExists fs (parentPath fullFile)
  · simp [hex, Pure.pure, Except.pure] at h
    subst h
    exact ⟨fun _ _ => rfl, fun _ _ hq => hq⟩
  · simp [hex] at h
    obtain ⟨hlook, hnex⟩ := mkdir_ok h
    constructor
    · intro q hq
      rw [hlook q]
      simp [hq]
    · intro q v hq
      rw [hlook q]
      have hne : q ≠ parentPath fullFile := by
        intro hh
        rw [hh] at hq
        have h1 : pathExists fs (parentPath fullFile) = true := by
          simp [pathExists, hq]
        simp [h1] at hnex
      simp [hne, hq]

/-- Existing entries not written by the extra-files step keep their value
(directory creation never touches an existing path). -/
theorem extraFiles_keep {cfgFiles : List (String × FileInfo)} {parentDir : Path} :
    ∀ {fs fs' : FS}, applyExtraFiles cfgFiles parentDir fs = .ok fs' →
    ∀ p v, fs.lookup p = some v →
      (∀ e ∈ cfgFiles, e.2.initialContent ≠ none → p ≠ parentDir ++ splitPathString e.1) →
      fs'.lookup p = some v := by
  induction cfgFiles with
  | nil =>
    intro fs fs' h p v hp _
    simp only [applyExtraFiles] at h
    cases h
    exact hp
  | cons e rest ih =>
    intro fs fs' h p v hp hne
    obtain ⟨fn, fi⟩ := e
    cases hic : fi.initialContent with
    | none =>
      simp only [applyExtraFiles, hic] at h
      exact ih h p v hp (fun e he hc => hne e (by simp [he]) hc)
    | some ic =>
      simp only [applyExtraFiles, hic] at h
      rw [exceptBindOk] at h
      obtain ⟨fs₁, hstep1, h⟩ := h
      rw [exceptBindOk] at h
      obtain ⟨fs₂, hwrite, h⟩ := h
      have hpne : p ≠ parentDir ++ splitPathString fn := by
        refine hne (fn, fi) (by simp) ?_
        simp [hic]
      have hfs₁ : fs₁.lookup p = some v := (ensureParentDir_ok hstep1).2 p v hp
      have hfs₂ : fs₂.lookup p = some v := by
        obtain ⟨hlook, -, -⟩ := writeEntry_ok hwrite
        rw [hlook p]
        simp [hpne, hfs₁]
      exact ih h p v hfs₂ (fun e he hc => hne e (by simp [he]) hc)

/-- Directories survive the extra-files step. -/
theorem extraFiles_dir {cfgFiles : List (String × FileInfo)} {parentDir : Path} :
    ∀ {fs fs' : FS}, applyExtraFiles cfgFiles parentDir fs = .ok fs' →
    ∀ p, isDir fs p = true → isDir fs' p = true := by
  induction cfgFiles with
  | nil =>
    intro fs fs' h p hp
    simp only [applyExtraFiles] at h
    cases h
    exact hp
  | cons e rest ih =>
    intro fs fs' h p hp
    obtain ⟨fn, fi⟩ := e
    cases hic : fi.initialContent with
    | none =>
      simp only [applyExtraFiles, hic] at h
      exact ih h p hp
    | some ic =>
      simp only [applyExtraFiles, hic] at h
      rw [exceptBindOk] at h
      obtain ⟨fs₁, hstep1, h⟩ := h
      rw [exceptBindOk] at h
      obtain ⟨fs₂, hwrite, h⟩ := h
      by_cases hroot : p = []
      · subst hroot
        exact ih h [] (by simp [isDir])
      · have hdir : fs.lookup p = some Entry.dir := by
          rcases (by simpa [isDir, hroot] using hp : fs.lookup p = some Entry.dir) with h'
          exact h'
        have hfs₁ : fs₁.lookup p = some Entry.dir :=
          (ensureParentDir_ok hstep1).2 p Entry.dir hdir
        have hfs₂ : fs₂.lookup p = some Entry.dir := by
          obtain ⟨hlook, -, hnotdir⟩ := writeEntry_ok hwrite
          have hne : p ≠ parentDir ++ splitPathString fn := by
            intro hh
            exact hnotdir (by rw [← hh]; exact hfs₁)
          rw [hlook p]
          simp [hne, hfs₁]
        exact ih h p (by simp [isDir, hfs₂])

/-- Paths other than the written extra files and their immediate parent
directories are untouched by the extra-files step. -/
theorem extraFiles_frame {cfgFiles : List (String × FileInfo)} {parentDir : Path} :
    ∀ {fs fs' : FS}, applyExtraFiles cfgFiles parentDir fs = .ok fs' →
    ∀ p, (∀ e ∈ cfgFiles, e.2.initialContent ≠ none →
        p ≠ parentDir ++ splitPathString e.1 ∧
        p ≠ parentPath (parentDir ++ splitPathString e.1)) →
      fs'.lookup p = fs.lookup p := by
  induction cfgFiles with
  | nil =>
    intro fs fs' h p _
    simp only [applyExtraFiles] at h
    cases h
    rfl
  | cons e rest ih =>
    intro fs fs' h p hne
    obtain ⟨fn, fi⟩ := e
    cases hic : fi.initialContent with
    | none =>
      simp only [applyExtraFiles, hic] at h
      exact ih h p (fun e he hc => hne e (by simp [he]) hc)
    | some ic =>
      simp only [applyExtraFiles, hic] at h
      rw [exceptBindOk] at h
      obtain ⟨fs₁, hstep1, h⟩ := h
      rw [exceptBindOk] at h
      obtain ⟨fs₂, hwrite, h⟩ := h
      obtain ⟨hpne, hppne⟩ := hne (fn, fi) (by simp) (by simp [hic])
      have hfs₁ : fs₁.lookup p = fs.lookup p := (ensureParentDir_ok hstep1).1 p hppne
      have hfs₂ : fs₂.lookup p = fs.lookup p := by
        obtain ⟨hlook, -, -⟩ := writeEntry_ok hwrite
        rw [hlook p]
        simp [hpne, hfs₁]
      rw [ih h p (fun e he hc => hne e (by simp [he]) hc)]
      exact hfs₂

/-- Every configured extra file with initial content ends the extra-files
step holding the dedented initial content (existing content is
overwritten), and its immediate parent directory exists afterwards. -/
theorem extraFiles_writes {cfgFiles : List (String × FileInfo)} {parentDir : Path} :
    ∀ {fs fs' : FS}, applyExtraFiles cfgFiles parentDir fs = .ok fs' →
    (cfgFiles.map (fun e => parentDir ++ splitPathString e.1)).Nodup →
    ∀ fn fi ic, (fn, fi) ∈ cfgFiles → fi.initialContent = some ic →
      fs'.lookup (parentDir ++ splitPathString fn) = some (.text (pyDedent ic))
      ∧ isDir fs' (parentPath (parentDir ++ splitPathString fn)) = true := by
  induction cfgFiles with
  | nil =>
    intro fs fs' _ _ fn fi ic hmem _
    exact absurd hmem (by simp)
  | cons e rest ih =>
    intro fs fs' h hnodup fn fi ic hmem hic
    obtain ⟨gn, gi⟩ := e
    rcases List.mem_cons.mp hmem with hhead | htail
    · have hfn : fn = gn := congrArg Prod.fst hhead
      have hfi : fi = gi := congrArg Prod.snd hhead
      subst hfn
      have hgic : gi.initialContent = some ic := hfi ▸ hic
      simp only [applyExtraFiles, hgic] at h
      rw [exceptBindOk] at h
      obtain ⟨fs₁, hstep1, h⟩ := h
      rw [exceptBindOk] at h
      obtain ⟨fs₂, hwrite, h⟩ := h
      obtain ⟨hlook, hdir₁, -⟩ := writeEntry_ok hwrite
      have hfull : fs₂.lookup (parentDir ++ splitPathString fn) =
          some (.text (pyDedent ic)) := by
        rw [hlook]
        simp [writeText]
      have hne : parentPath (parentDir ++ splitPathString fn) ≠
          parentDir ++ splitPathString fn :=
        parentPath_ne (appendSplit_ne_nil parentDir fn)
      have hdir₂ : isDir fs₂ (parentPath (parentDir ++ splitPathString fn)) = true := by
        by_cases hroot : parentPath (parentDir ++ splitPathString fn) = []
        · simp [isDir, hroot]
        · have : fs₁.lookup (parentPath (parentDir ++ splitPathString fn)) =
              some Entry.dir := by
            rcases (by simpa [isDir, hroot] using hdir₁ :
              fs₁.lookup (parentPath (parentDir ++ splitPathString fn)) =
                some Entry.dir) with h'
            exact h'
          have : fs₂.lookup (parentPath (parentDir ++ splitPathString fn)) =
              some Entry.dir := by
            rw [hlook]
            simp [hne, this]
          simp [isDir, this]
      constructor
      · refine extraFiles_keep h (parentDir ++ splitPathString fn) _ hfull ?_
        intro e he hc
        intro hcontra
        apply (List.nodup_cons.mp hnodup).1
        show (parentDir ++ splitPathString fn) ∈
          List.map (fun e => parentDir ++ splitPathString e.1) rest
        rw [hcontra]
        exact List.mem_map.mpr ⟨e, he, rfl⟩
      · exact extraFiles_dir h _ hdir₂
    · cases hgic : gi.initialContent with
      | none =>
        simp only [applyExtraFiles, hgic] at h
        exact ih h (List.nodup_cons.mp hnodup).2 fn fi ic htail hic
      | some gc =>
        simp only [applyExtraFiles, hgic] at h
        rw [exceptBindOk] at h
        obtain ⟨fs₁, hstep1, h⟩ := h
        rw [exceptBindOk] at h
        obtain ⟨fs₂, hwrite, h⟩ := h
        exact ih h (List.nodup_cons.mp hnodup).2 fn fi ic htail hic

/-- The substitution write loop on a single-project registry: it extends
that project's substitution map by records whose keys are drawn, in
order, from the processed file list, and touches nothing else in the
registry. -/
theorem substLoop_state {name ver : String} :
    ∀ (files : List (Path × FolderConfig)) (st : PluginState) (fs : FS)
      (st' : PluginState) (fs' : FS) (p0 : Path) (o0 v0 : String)
      (subs0 : List (Path × String)),
      st.projects = [(name, ⟨p0, o0, v0, subs0⟩)] →
      (files.map Prod.fst).Nodup →
      (∀ f ∈ files.map Prod.fst, f ∉ subs0.map Prod.fst) →
      substFilesLoop name ver files st fs = .ok (st', fs') →
      ∃ extra, st'.projects = [(name, ⟨p0, o0, v0, subs0 ++ extra⟩)]
        ∧ st'.cliMode = st.cliMode
        ∧ List.Sublist (extra.map Prod.fst) (files.map Prod.fst) := by
  intro files
  induction files with
  | nil =>
    intro st fs st' fs' p0 o0 v0 subs0 hst _ _ h
    simp only [substFilesLoop] at h
    cases h
    exact ⟨[], by simpa using hst, rfl, by simp⟩
  | cons entry rest ih =>
    intro st fs st' fs' p0 o0 v0 subs0 hst hnodup hfresh h
    obtain ⟨file, folderCfg⟩ := entry
    simp only [substFilesLoop] at h
    rw [exceptBindOk] at h
    obtain ⟨oc, hoc, h⟩ := h
    rw [exceptBindOk] at h
    obtain ⟨nc, hnc, h⟩ := h
    by_cases hchg : oc ≠ nc
    · rw [if_pos hchg] at h
      rw [exceptBindOk] at h
      obtain ⟨fs₂, hw, h⟩ := h
      have hnotin : file ∉ subs0.map Prod.fst := hfresh file (by simp)
      have hany : subs0.any (fun s => s.1 = file) = false := by
        rw [List.any_eq_false]
        intro s hs
        simp only [decide_eq_true_eq]
        intro heq
        exact hnotin (List.mem_map.mpr ⟨s, hs, heq⟩)
      have hst₂ : (recordSub st name file oc).projects =
          [(name, ⟨p0, o0, v0, subs0 ++ [(file, oc)]⟩)] := by
        simp [recordSub, hst, hany]
      obtain ⟨extra', hproj', hcli', hsub'⟩ :=
        ih (recordSub st name file oc) fs₂ st' fs' p0 o0 v0 (subs0 ++ [(file, oc)])
          hst₂ (List.nodup_cons.mp hnodup).2
          (by
            intro f hf
            simp only [List.map_append, List.mem_append, List.map_cons, List.map_nil,
              List.mem_singleton]
            rintro (hin | hfile)
            · exact hfresh f (by simp [hf]) hin
            · exact (List.nodup_cons.mp hnodup).1 (hfile ▸ hf))
          h
      refine ⟨(file, oc) :: extra', ?_, ?_, ?_⟩
      · rw [hproj']
        simp
      · rw [hcli']
        simp [recordSub]
      · exact List.Sublist.cons₂ file hsub'
    · rw [if_neg hchg] at h
      obtain ⟨extra, hproj, hcli, hsub⟩ :=
        ih st fs st' fs' p0 o0 v0 subs0 hst (List.nodup_cons.mp hnodup).2
          (fun f hf => hfresh f (by simp [hf])) h
      exact ⟨extra, hproj, hcli, hsub.cons file⟩

/-- Restoring recorded files leaves every other path untouched. -/
theorem restore_frame {persistent : List Path} :
    ∀ (subs : List (Path × String)) (fs fs' : FS),
      restoreLoop persistent subs fs = .ok fs' →
      ∀ q, q ∉ subs.map Prod.fst → fs'.lookup q = fs.lookup q := by
  intro subs
  induction subs with
  | nil =>
    intro fs fs' h q _
    simp only [restoreLoop] at h
    cases h
    rfl
  | cons entry rest ih =>
    intro fs fs' h q hq
    obtain ⟨file, content⟩ := entry
    simp only [restoreLoop] at h
    by_cases hp : file ∈ persistent
    · simp only [hp, if_true] at h
      exact ih fs fs' h q (fun hmem => hq (by simp [hmem]))
    · simp only [hp, if_false] at h
      rw [exceptBindOk] at h
      obtain ⟨fs₂, hw, h⟩ := h
      have hqf : q ≠ file := fun hh => hq (by simp [hh])
      rw [ih fs₂ fs' h q (fun hmem => hq (by simp [hmem]))]
      obtain ⟨hlook, -, -⟩ := writeEntry_ok hw
      rw [hlook q]
      simp [hqf]

/-- Restoring recorded files writes each non-persistent record's original
content and skips persistent records entirely. -/
theorem restore_sets {persistent : List Path} :
    ∀ (subs : List (Path × String)) (fs fs' : FS),
      restoreLoop persistent subs fs = .ok fs' →
      (subs.map Prod.fst).Nodup →
      ∀ f o, (f, o) ∈ subs →
        (f ∉ persistent → fs'.lookup f = some (.text o))
        ∧ (f ∈ persistent → fs'.lookup f = fs.lookup f) := by
  intro subs
  induction subs with
  | nil =>
    intro fs fs' _ _ f o hmem
    exact absurd hmem (by simp)
  | cons entry rest ih =>
    intro fs fs' h hnodup f o hmem
    obtain ⟨file, content⟩ := entry
    simp only [restoreLoop] at h
    rcases List.mem_cons.mp hmem with hhead | htail
    · have hf : f = file := congrArg Prod.fst hhead
      have ho : o = content := congrArg Prod.snd hhead
      subst hf
      subst ho
      have hnotin : f ∉ rest.map Prod.fst := by simpa using (List.nodup_cons.mp hnodup).1
      by_cases hp : f ∈ persistent
      · simp only [hp, if_true] at h
        have := restore_frame rest fs fs' h f hnotin
        exact ⟨fun hnp => absurd hp hnp, fun _ => this⟩
      · simp only [hp, if_false] at h
        rw [exceptBindOk] at h
        obtain ⟨fs₂, hw, h⟩ := h
        have hframe := restore_frame rest fs₂ fs' h f hnotin
        obtain ⟨hlook, -, -⟩ := writeEntry_ok hw
        refine ⟨fun _ => ?_, fun hin => absurd hin hp⟩
        rw [hframe, hlook f]
        simp [writeText]
    · have hfile : f ≠ file := by
        intro hh
        exact (List.nodup_cons.mp hnodup).1
          (by rw [← hh]; exact List.mem_map.mpr ⟨(f, o), htail, rfl⟩)
      by_cases hp : file ∈ persistent
      · simp only [hp, if_true] at h
        exact ih fs fs' h (List.nodup_cons.mp hnodup).2 f o htail
      · simp only [hp, if_false] at h
        rw [exceptBindOk] at h
        obtain ⟨fs₂, hw, h⟩ := h
        obtain ⟨h1, h2⟩ := ih fs₂ fs' h (List.nodup_cons.mp hnodup).2 f o htail
        refine ⟨h1, fun hin => ?_⟩
        rw [h2 hin]
        obtain ⟨hlook, -, -⟩ := writeEntry_ok hw
        rw [hlook f]
        simp [hfile]

/-! ### Matcher metatheory for the default string pattern

These lemmas characterise `reSub` with `defaultStrPattern` on a
`__version__ = "..."` line, supporting the amended idempotency claim. -/

/-- Every match candidate's consumed text is a prefix of the input. -/
theorem starLoop_decomp (f : Option Char → List Char → List MatchEnd) (g : Bool)
    (hf : ∀ p t e, e ∈ f p t → e.1 ++ e.2.2 = t) :
    ∀ (fuel : Nat) (prev : Option Char) (s : List Char) (e : MatchEnd),
      e ∈ starLoop f g fuel prev s → e.1 ++ e.2.2 = s := by
  intro fuel
  induction fuel with
  | zero =>
    intro prev s e he
    simp [starLoop] at he
    simp [he]
  | succ n ih =>
    intro prev s e he
    simp only [starLoop] at he
    have hdeeper : ∀ e', e' ∈ ((f prev s).filter (fun e => ¬ e.1 = [])).flatMap
        (fun e => (starLoop f g n e.2.1 e.2.2).map
          (fun e2 => (e.1 ++ e2.1, e2.2.1, e2.2.2))) → e'.1 ++ e'.2.2 = s := by
      intro e' he'
      obtain ⟨e1, he1, he'⟩ := List.mem_flatMap.mp he'
      obtain ⟨e2, he2, he'⟩ := List.mem_map.mp he'
      have h1 : e1.1 ++ e1.2.2 = s := hf prev s e1 (List.mem_filter.mp he1).1
      have h2 : e2.1 ++ e2.2.2 = e1.2.2 := ih e1.2.1 e1.2.2 e2 he2
      rw [← he']
      simp only []
      rw [List.append_assoc, h2, h1]
    by_cases hg : g
    · rw [if_pos hg] at he
      rcases List.mem_append.mp he with hd | hb
      · exact hdeeper e hd
      · simp at hb
        simp [hb]
    · rw [if_neg hg] at he
      rcases List.mem_cons.mp he with hd | hb
      · simp [hd]
      · exact hdeeper e hb

theorem mends_decomp :
    ∀ (r : Regex) (prev : Option Char) (s : List Char) (e : MatchEnd),
      e ∈ mends r prev s → e.1 ++ e.2.2 = s := by
  intro r
  induction r with
  | eps =>
    intro prev s e he
    simp [mends] at he
    simp [he]
  | chr c =>
    intro prev s e he
    match s with
    | [] => simp [mends] at he
    | a :: rest =>
      simp only [mends] at he
      by_cases h : a = c
      · rw [if_pos h] at he
        simp at he
        simp [he]
      · rw [if_neg h] at he
        simp at he
  | cls neg cs =>
    intro prev s e he
    match s with
    | [] => simp [mends] at he
    | a :: rest =>
      simp only [mends] at he
      by_cases h : cs.contains a ≠ neg
      · rw [if_pos h] at he
        simp at he
        simp [he]
      · rw [if_neg h] at he
        simp at he
  | anyc =>
    intro prev s e he
    match s with
    | [] => simp [mends] at he
    | a :: rest =>
      simp only [mends] at he
      by_cases h : a = '\n'
      · rw [if_pos h] at he
        simp at he
      · rw [if_neg h] at he
        simp at he
        simp [he]
  | concat r1 r2 ih1 ih2 =>
    intro prev s e he
    simp only [mends] at he
    obtain ⟨e1, he1, he⟩ := List.mem_flatMap.mp he
    obtain ⟨e2, he2, he⟩ := List.mem_map.mp he
    have h1 := ih1 prev s e1 he1
    have h2 := ih2 e1.2.1 e1.2.2 e2 he2
    rw [← he]
    simp only []
    rw [List.append_assoc, h2, h1]
  | alt r1 r2 ih1 ih2 =>
    intro prev s e he
    simp only [mends] at he
    rcases List.mem_append.mp he with h | h
    · exact ih1 prev s e h
    · exact ih2 prev s e h
  | star g r ih =>
    intro prev s e he
    simp only [mends] at he
    exact starLoop_decomp (fun p t => mends r p t) g (fun p t e' => ih p t e') (s.length + 1)
      prev s e he
  | opt g r ih =>
    intro prev s e he
    simp only [mends] at he
    by_cases hg : g
    · rw [if_pos hg] at he
      rcases List.mem_append.mp he with h | h
      · exact ih prev s e h
      · simp at h
        simp [h]
    · rw [if_neg hg] at he
      rcases List.mem_cons.mp he with h | h
      · simp [h]
      · exact ih prev s e h
  | bol =>
    intro prev s e he
    simp only [mends] at he
    by_cases h : prev = none ∨ prev = some '\n'
    · rw [if_pos h] at he
      simp at he
      simp [he]
    · rw [if_neg h] at he
      simp at he

theorem flatMapCongr {α β : Type} {l : List α} {f₁ f₂ : α → List β}
    (h : ∀ a ∈ l, f₁ a = f₂ a) : l.flatMap f₁ = l.flatMap f₂ := by
  induction l with
  | nil => rfl
  | cons a rest ih =>
    simp only [List.flatMap_cons]
    rw [h a (by simp), ih (fun a ha => h a (by simp [ha]))]

theorem starLoop_fuel_inv (f : Option Char → List Char → List MatchEnd) (g : Bool)
    (hf : ∀ p t e, e ∈ f p t → e.1 ++ e.2.2 = t) :
    ∀ (fuel₁ fuel₂ : Nat) (s : List Char) (prev : Option Char),
      s.length < fuel₁ → s.length < fuel₂ →
      starLoop f g fuel₁ prev s = starLoop f g fuel₂ prev s := by
  intro fuel₁
  induction fuel₁ with
  | zero => intro fuel₂ s prev h1 _; omega
  | succ n₁ ih =>
    intro fuel₂ s prev h1 h2
    match fuel₂ with
    | 0 => omega
    | n₂ + 1 =>
      simp only [starLoop]
      have hcong : ((f prev s).filter (fun e => ¬ e.1 = [])).flatMap
          (fun e => (starLoop f g n₁ e.2.1 e.2.2).map
            (fun e2 => (e.1 ++ e2.1, e2.2.1, e2.2.2))) =
          ((f prev s).filter (fun e => ¬ e.1 = [])).flatMap
          (fun e => (starLoop f g n₂ e.2.1 e.2.2).map
            (fun e2 => (e.1 ++ e2.1, e2.2.1, e2.2.2))) := by
        refine flatMapCongr ?_
        intro e he
        have hmem := List.mem_filter.mp he
        have hd := hf prev s e hmem.1
        have hne : e.1 ≠ [] := by simpa using hmem.2
        have hlen : e.2.2.length < s.length := by
          rw [← hd]
          simp only [List.length_append]
          have : 0 < e.1.length := List.length_pos.mpr hne
          omega
        rw [ih n₂ e.2.2 e.2.1 (by omega) (by omega)]
      rw [hcong]

theorem mends_star_eq (g : Bool) (r : Regex) (prev : Option Char) (s : List Char) :
    mends (.star g r) prev s =
      (if g then
        ((mends r prev s).filter (fun e => ¬ e.1 = [])).flatMap
          (fun e => (mends (.star g r) e.2.1 e.2.2).map
            (fun e2 => (e.1 ++ e2.1, e2.2.1, e2.2.2))) ++ [([], prev, s)]
      else ([], prev, s) ::
        ((mends r prev s).filter (fun e => ¬ e.1 = [])).flatMap
          (fun e => (mends (.star g r) e.2.1 e.2.2).map
            (fun e2 => (e.1 ++ e2.1, e2.2.1, e2.2.2)))) := by
  conv_lhs => simp only [mends]
  rw [starLoop]
  have hcong : ((mends r prev s).filter (fun e => ¬ e.1 = [])).flatMap
      (fun e => (starLoop (fun p t => mends r p t) g s.length e.2.1 e.2.2).map
        (fun e2 => (e.1 ++ e2.1, e2.2.1, e2.2.2))) =
      ((mends r prev s).filter (fun e => ¬ e.1 = [])).flatMap
      (fun e => (mends (.star g r) e.2.1 e.2.2).map
        (fun e2 => (e.1 ++ e2.1, e2.2.1, e2.2.2))) := by
    refine flatMapCongr ?_
    intro e he
    have hmem := List.mem_filter.mp he
    have hd := mends_decomp r prev s e hmem.1
    have hne : e.1 ≠ [] := by simpa using hmem.2
    have hlen : e.2.2.length < s.length := by
      rw [← hd]
      simp only [List.length_append]
      have : 0 < e.1.length := List.length_pos.mpr hne
      omega
    conv_rhs => simp only [mends]
    rw [starLoop_fuel_inv (fun p t => mends r p t) g (fun p t e' => mends_decomp r p t e')
      s.length (e.2.2.length + 1) e.2.2 e.2.1 hlen (by omega)]
  rw [hcong]

/-- The greedy quote-excluding star consumes exactly a quote-free run. -/
theorem mends_midstar :
    ∀ (w : List Char) (prev : Option Char) (rest : List Char),
      (∀ c ∈ w, ¬ c = '\'' ∧ ¬ c = '"') →
      ∃ pa tail, mends (.star true (.cls true ['\'', '"'])) prev (w ++ '"' :: rest) =
        (w, pa, '"' :: rest) :: tail := by
  intro w
  induction w with
  | nil =>
    intro prev rest _
    refine ⟨prev, [], ?_⟩
    rw [mends_star_eq]
    simp [mends]
  | cons c w' ih =>
    intro prev rest hw
    obtain ⟨pa, tail, htail⟩ := ih (some c) rest (fun x hx => hw x (by simp [hx]))
    have hc : mends (Regex.cls true ['\'', '"']) prev (c :: (w' ++ '"' :: rest)) =
        [([c], some c, w' ++ '"' :: rest)] := by
      have h1 := (hw c (by simp)).1
      have h2 := (hw c (by simp)).2
      simp [mends, h1, h2]
    refine ⟨pa, tail.map (fun e2 => (c :: e2.1, e2.2.1, e2.2.2)) ++
      [([], prev, (c :: w') ++ '"' :: rest)], ?_⟩
    rw [mends_star_eq]
    simp only [List.cons_append, hc]
    simp
    rw [htail]
    simp

theorem mends_eps (prev : Option Char) (s : List Char) :
    mends .eps prev s = [([], prev, s)] := rfl
theorem mends_chr_nil (c : Char) (prev : Option Char) : mends (.chr c) prev [] = [] := rfl
theorem mends_chr_cons (c a : Char) (prev : Option Char) (rest : List Char) :
    mends (.chr c) prev (a :: rest) = if a = c then [([a], some a, rest)] else [] := rfl
theorem mends_cls_nil (neg : Bool) (cs : List Char) (prev : Option Char) :
    mends (.cls neg cs) prev [] = [] := rfl
theorem mends_cls_cons (neg : Bool) (cs : List Char) (a : Char) (prev : Option Char)
    (rest : List Char) :
    mends (.cls neg cs) prev (a :: rest) =
      if (cs.contains a) ≠ neg then [([a], some a, rest)] else [] := rfl
theorem mends_anyc_nil (prev : Option Char) : mends .anyc prev [] = [] := rfl
theorem mends_anyc_cons (a : Char) (prev : Option Char) (rest : List Char) :
    mends .anyc prev (a :: rest) = if a = '\n' then [] else [([a], some a, rest)] := rfl
theorem mends_concat (r1 r2 : Regex) (prev : Option Char) (s : List Char) :
    mends (.concat r1 r2) prev s = (mends r1 prev s).flatMap
      (fun e => (mends r2 e.2.1 e.2.2).map
        (fun e2 => (e.1 ++ e2.1, e2.2.1, e2.2.2))) := rfl
theorem mends_alt (r1 r2 : Regex) (prev : Option Char) (s : List Char) :
    mends (.alt r1 r2) prev s = mends r1 prev s ++ mends r2 prev s := rfl
theorem mends_opt (g : Bool) (r : Regex) (prev : Option Char) (s : List Char) :
    mends (.opt g r) prev s = if g then mends r prev s ++ [([], prev, s)]
      else ([], prev, s) :: mends r prev s := rfl
theorem mends_bol (prev : Option Char) (s : List Char) :
    mends .bol prev s =
      if prev = none ∨ prev = some '\n' then [([], prev, s)] else [] := rfl

theorem ws_star_nomatch (prev : Option Char) (a : Char) (rest : List Char)
    (ha : a ∉ wsChars) :
    mends (.star true (.cls false wsChars)) prev (a :: rest) = [([], prev, a :: rest)] := by
  rw [mends_star_eq]
  simp only [mends_cls_cons]
  simp [ha]

theorem ws_star_one (prev : Option Char) (a b : Char) (rest : List Char)
    (ha : a ∈ wsChars) (hb : b ∉ wsChars) :
    mends (.star true (.cls false wsChars)) prev (a :: b :: rest) =
      [([a], some a, b :: rest), ([], prev, a :: b :: rest)] := by
  rw [mends_star_eq]
  simp only [mends_cls_cons]
  simp [ha, ws_star_nomatch (some a) b rest hb]

theorem ws_star_sp_eq (prev : Option Char) (rest : List Char) :
    mends (.star true (.cls false wsChars)) prev (' ' :: '=' :: rest) =
      [([' '], some ' ', '=' :: rest), ([], prev, ' ' :: '=' :: rest)] :=
  ws_star_one prev ' ' '=' rest (by decide) (by decide)

theorem ws_star_sp_quote (prev : Option Char) (rest : List Char) :
    mends (.star true (.cls false wsChars)) prev (' ' :: '"' :: rest) =
      [([' '], some ' ', '"' :: rest), ([], prev, ' ' :: '"' :: rest)] :=
  ws_star_one prev ' ' '"' rest (by decide) (by decide)

set_option maxRecDepth 4000 in
theorem mends_g1 (t : List Char) :
    mends defaultStrPattern.g1 none
      ('_' :: '_' :: 'v' :: 'e' :: 'r' :: 's' :: 'i' :: 'o' :: 'n' :: '_' :: '_' ::
        ' ' :: '=' :: ' ' :: '"' :: t) =
      [(['_', '_', 'v', 'e', 'r', 's', 'i', 'o', 'n', '_', '_', ' ', '=', ' ', '"'],
        some '"', t)] := by
  simp [defaultStrPattern, seqList, lits, mends_eps, mends_chr_nil, mends_chr_cons,
    mends_cls_nil, mends_cls_cons, mends_anyc_nil, mends_anyc_cons, mends_concat, mends_alt,
    mends_opt, mends_bol, ws_star_sp_eq, ws_star_sp_quote]

/-- The default string pattern matches a `__version__ = "w"` line at the
start of the subject: group 1 is the 15-character prefix, the mid group is
the quote-free run `w`, group 2 is the closing quote. -/
theorem matchTriple_version (w : List Char) (rest : List Char)
    (hw : ∀ c ∈ w, ¬ c = '\'' ∧ ¬ c = '"') :
    matchTriple defaultStrPattern none
      ('_' :: '_' :: 'v' :: 'e' :: 'r' :: 's' :: 'i' :: 'o' :: 'n' :: '_' :: '_' ::
        ' ' :: '=' :: ' ' :: '"' :: (w ++ '"' :: rest)) =
      some (['_', '_', 'v', 'e', 'r', 's', 'i', 'o', 'n', '_', '_', ' ', '=', ' ', '"'],
        w, ['"'], some '"', rest) := by
  obtain ⟨pa, tail, hmid⟩ := mends_midstar w (some '"') rest hw
  unfold matchTriple
  rw [mends_g1 (w ++ '"' :: rest)]
  simp only [List.flatMap_cons, List.flatMap_nil, List.append_nil]
  rw [show defaultStrPattern.mid = Regex.star true (Regex.cls true ['\'', '"']) from rfl]
  rw [hmid]
  simp only [List.flatMap_cons]
  rw [show defaultStrPattern.g2 = Regex.cls false ['\'', '"'] from rfl]
  simp [mends_cls_cons]

/-- A successful `matchTriple` decomposes the subject. -/
theorem matchTriple_decomp (p : GroupedRegex) (prev : Option Char) (s : List Char)
    (c1 c2 c3 : List Char) (p3 : Option Char) (rest : List Char)
    (h : matchTriple p prev s = some (c1, c2, c3, p3, rest)) :
    c1 ++ c2 ++ c3 ++ rest = s := by
  unfold matchTriple at h
  have hmem : (c1, c2, c3, p3, rest) ∈ (mends p.g1 prev s).flatMap
      (fun e1 => (mends p.mid e1.2.1 e1.2.2).flatMap
        (fun e2 => (mends p.g2 e2.2.1 e2.2.2).map
          (fun e3 => (e1.1, e2.1, e3.1, e3.2.1, e3.2.2)))) :=
    List.mem_of_mem_head? (by rw [h]; rfl)
  obtain ⟨e1, he1, hm⟩ := List.mem_flatMap.mp hmem
  obtain ⟨e2, he2, hm⟩ := List.mem_flatMap.mp hm
  obtain ⟨e3, he3, hm⟩ := List.mem_map.mp hm
  have h1 := mends_decomp p.g1 prev s e1 he1
  have h2 := mends_decomp p.mid e1.2.1 e1.2.2 e2 he2
  have h3 := mends_decomp p.g2 e2.2.1 e2.2.2 e3 he3
  have hc1 : e1.1 = c1 := congrArg (fun x => x.1) hm
  have hc2 : e2.1 = c2 := congrArg (fun x => x.2.1) hm
  have hc3 : e3.1 = c3 := congrArg (fun x => x.2.2.1) hm
  have hrest : e3.2.2 = rest := congrArg (fun x => x.2.2.2.2) hm
  subst hc1
  subst hc2
  subst hc3
  subst hrest
  rw [List.append_assoc, List.append_assoc, h3, h2, h1]

/-- Template parsing of a backslash-free run followed by the `\g<2>`
trailer. -/
theorem parse_template_lits :
    ∀ (w : List Char), '\\' ∉ w →
      ∀ (fuel pos : Nat), w.length + 5 < fuel →
        parse_template fuel pos (w ++ ['\\', 'g', '<', '2', '>']) =
          .ok (w.map .lit ++ [.group 2]) := by
  intro w
  induction w with
  | nil =>
    intro _ fuel pos h
    match fuel, h with
    | f + 1, h =>
      match f, (by omega : 0 < f) with
      | f2 + 1, _ =>
        simp [parse_template, getUntilGt, resolveGroupName, pyIsIdentifier, pyInt,
          pyStrip, pyDigits, pyDigitsAux, isAsciiLetterCh, isPySpace, Except.map]
  | cons a w' ih =>
    intro hw fuel pos h
    match fuel with
    | f + 1 =>
      have ha : ¬ a = '\\' := by
        intro hh
        subst hh
        exact hw (List.mem_cons_self _ _)
      have hw' : '\\' ∉ w' := fun hh => hw (List.mem_cons_of_mem a hh)
      simp only [List.cons_append, parse_template, List.append_eq]
      rw [if_neg ha]
      rw [ih hw' f (pos + 1) (by simp only [List.length_cons] at h; omega)]
      rfl

/-- Template parsing of the source's replacement template for a
backslash-free insert: group 1, the insert's characters, group 2. -/
theorem parse_template_std (insert : List Char) (hv : '\\' ∉ insert) :
    ∀ (fuel pos : Nat), insert.length + 10 < fuel →
      parse_template fuel pos
        ('\\' :: 'g' :: '<' :: '1' :: '>' :: (insert ++ ['\\', 'g', '<', '2', '>'])) =
        .ok (stdTmpl insert) := by
  intro fuel pos h
  match fuel with
  | f + 1 =>
    have hrest1 := parse_template_lits insert hv f (pos + 5) (by omega)
    have hrest2 := parse_template_lits insert hv f (pos + 3 + 1 + 1) (by omega)
    simp [parse_template, getUntilGt, resolveGroupName, pyIsIdentifier, pyInt,
      pyStrip, pyDigits, pyDigitsAux, isAsciiLetterCh, isPySpace, Except.map,
      hrest1, hrest2, stdTmpl]

/-- For a backslash-free insert the template compiles to
`\g<1>insert\g<2>` and `reSub` performs a plain scan with the insert
spliced between the captured groups. -/
theorem reSub_noBackslash (p : GroupedRegex) (insert content : String)
    (hv : '\\' ∉ insert.data) :
    reSub p insert content =
      .ok ((reSubLoop p (stdTmpl insert.data) (content.data.length + 1) none
        content.data).asString) := by
  unfold reSub substTemplate
  rw [parse_template_std insert.data hv _ 0
    (by simp only [List.length_cons, List.length_append, List.length_nil]; omega)]
  rfl

/-- Expanding the standard parsed template at a match splices the insert
between the two captured groups. -/
theorem expandTmpl_std (w c1 c2 c3 : List Char) :
    expandTmpl (stdTmpl w) c1 c2 c3 = c1 ++ w ++ c3 := by
  unfold expandTmpl stdTmpl
  rw [List.flatMap_cons, List.flatMap_append]
  have hlit : ∀ u : List Char, (u.map TmplItem.lit).flatMap (fun item =>
      match item with
      | .lit c => [c]
      | .group 0 => c1 ++ c2 ++ c3
      | .group 1 => c1
      | .group _ => c3) = u := by
    intro u
    induction u with
    | nil => rfl
    | cons b u' ihu =>
      simp only [List.map_cons, List.flatMap_cons, ihu, List.singleton_append]
  rw [hlit w]
  simp

/-- `reSubLoop` does not depend on the fuel once it exceeds the subject
length. -/
theorem reSubLoop_fuel_inv (p : GroupedRegex) (tmpl : List TmplItem) :
    ∀ (fuel₁ fuel₂ : Nat) (prev : Option Char) (s : List Char),
      s.length < fuel₁ → s.length < fuel₂ →
      reSubLoop p tmpl fuel₁ prev s = reSubLoop p tmpl fuel₂ prev s := by
  intro fuel₁
  induction fuel₁ with
  | zero => intro fuel₂ prev s h1 _; omega
  | succ n₁ ih =>
    intro fuel₂ prev s h1 h2
    match fuel₂ with
    | 0 => omega
    | n₂ + 1 =>
      cases hm : matchTriple p prev s with
      | none =>
        cases s with
        | nil => simp only [reSubLoop, hm]
        | cons a t =>
          simp only [reSubLoop, hm]
          simp only [List.length_cons] at h1 h2
          rw [ih n₂ (some a) t (by omega) (by omega)]
      | some q =>
        obtain ⟨c1, c2, c3, p3, rest⟩ := q
        have hd := matchTriple_decomp p prev s c1 c2 c3 p3 rest hm
        by_cases hempty : c1 ++ c2 ++ c3 = []
        · cases s with
          | nil => simp only [reSubLoop, hm, if_pos hempty]
          | cons a t =>
            simp only [reSubLoop, hm, if_pos hempty]
            simp only [List.length_cons] at h1 h2
            rw [ih n₂ (some a) t (by omega) (by omega)]
        · simp only [reSubLoop, hm, if_neg hempty]
          have hlen : (c1 ++ c2 ++ c3).length + rest.length = s.length := by
            rw [← hd]; simp only [List.length_append]
          have hne : 0 < (c1 ++ c2 ++ c3).length := List.length_pos.mpr hempty
          simp only [List.length_append] at hlen hne
          rw [ih n₂ p3 rest (by omega) (by omega)]

/-- One scan of the default string pattern over a `__version__ = "w"`
line replaces exactly the quoted run with the insert text. -/
theorem reSubLoop_version (v w : List Char)
    (hw : ∀ c ∈ w, ¬ c = '\'' ∧ ¬ c = '"') (fuel : Nat)
    (hfuel : w.length + 17 < fuel) :
    reSubLoop defaultStrPattern (stdTmpl v) fuel none
      ('_' :: '_' :: 'v' :: 'e' :: 'r' :: 's' :: 'i' :: 'o' :: 'n' :: '_' :: '_' ::
        ' ' :: '=' :: ' ' :: '"' :: (w ++ '"' :: '\n' :: [])) =
      '_' :: '_' :: 'v' :: 'e' :: 'r' :: 's' :: 'i' :: 'o' :: 'n' :: '_' :: '_' ::
        ' ' :: '=' :: ' ' :: '"' :: (v ++ '"' :: '\n' :: []) := by
  match fuel with
  | 0 => omega
  | n + 1 =>
    simp only [reSubLoop, matchTriple_version w ('\n' :: []) hw]
    rw [if_neg (by simp)]
    rw [expandTmpl_std]
    have hone : ('\n' :: ([] : List Char)).length = 1 := rfl
    rw [reSubLoop_fuel_inv defaultStrPattern (stdTmpl v) n 2 (some '"') ('\n' :: [])
      (by rw [hone]; omega) (by rw [hone]; omega)]
    have htail : reSubLoop defaultStrPattern (stdTmpl v) 2 (some '"') ('\n' :: []) =
        '\n' :: [] := rfl
    rw [htail]
    simp

/-- String-level: one application of the default string pattern on a
`__version__ = "w"` line yields the line with `w` replaced by the
version. -/
theorem substDefaultStrOne (v w : String)
    (hv : '\\' ∉ v.data)
    (hw : ∀ c ∈ w.data, ¬ c = '\'' ∧ ¬ c = '"') :
    _substitute_version_in_text v ("__version__ = \"" ++ w ++ "\"\n")
      [⟨defaultStrPattern, "str"⟩] = .ok ("__version__ = \"" ++ v ++ "\"\n") := by
  have hdata : ∀ u : String, ("__version__ = \"" ++ u ++ "\"\n").data =
      '_' :: '_' :: 'v' :: 'e' :: 'r' :: 's' :: 'i' :: 'o' :: 'n' :: '_' :: '_' ::
        ' ' :: '=' :: ' ' :: '"' :: (u.data ++ '"' :: '\n' :: []) := by
    intro u
    rw [String.data_append, String.data_append]
    rfl
  simp only [_substitute_version_in_text]
  simp only [if_true]
  rw [reSub_noBackslash defaultStrPattern v _ hv]
  simp only [Except.bind]
  rw [hdata w]
  rw [reSubLoop_version v.data w.data hw _
    (by simp only [List.length_cons, List.length_append, List.length_nil]; omega)]
  rw [← hdata v]
  rfl

/-! ### Character-set facts for the tuple encoding

The tuple encoding of a backslash-free version is backslash-free, so for
such versions the replacement template of either default mode compiles
without error. -/

theorem digitChar_ne_backslash : ∀ m : Nat, m < 10 → Nat.digitChar m ≠ '\\' := by
  decide

theorem toDigitsCore_ne_backslash :
    ∀ (fuel n : Nat) (ds : List Char), (∀ c ∈ ds, c ≠ '\\') →
      ∀ c ∈ Nat.toDigitsCore 10 fuel n ds, c ≠ '\\' := by
  intro fuel
  induction fuel with
  | zero =>
    intro n ds hds c hc
    simp only [Nat.toDigitsCore] at hc
    exact hds c hc
  | succ f ih =>
    intro n ds hds c hc
    simp only [Nat.toDigitsCore] at hc
    have hd : Nat.digitChar (n % 10) ≠ '\\' :=
      digitChar_ne_backslash (n % 10) (Nat.mod_lt n (by decide))
    by_cases h0 : n / 10 = 0
    · rw [if_pos h0] at hc
      rcases List.mem_cons.mp hc with h | h
      · rw [h]; exact hd
      · exact hds c h
    · rw [if_neg h0] at hc
      refine ih (n / 10) (Nat.digitChar (n % 10) :: ds) ?_ c hc
      intro x hx
      rcases List.mem_cons.mp hx with h | h
      · rw [h]; exact hd
      · exact hds x h

theorem natRepr_ne_backslash (n : Nat) : ∀ c ∈ (Nat.repr n).data, c ≠ '\\' := by
  intro c hc
  have h : (Nat.repr n).data = Nat.toDigitsCore 10 (n + 1) n [] := rfl
  rw [h] at hc
  exact toDigitsCore_ne_backslash (n + 1) n [] (by intro x hx; simp at hx) c hc

theorem intToString_ne_backslash (i : Int) : ∀ c ∈ (toString i).data, c ≠ '\\' := by
  cases i with
  | ofNat m => exact natRepr_ne_backslash m
  | negSucc m =>
    intro c hc
    have h : (toString (Int.negSucc m)).data = '-' :: (Nat.repr (m + 1)).data := by
      show (("-" : String) ++ Nat.repr (m + 1)).data = _
      rw [String.data_append]
      rfl
    rw [h] at hc
    rcases List.mem_cons.mp hc with h1 | h1
    · rw [h1]; decide
    · exact natRepr_ne_backslash (m + 1) c h1

theorem pySplitAny_subset (seps : List Char) :
    ∀ (l part : List Char), part ∈ pySplitAny seps l → ∀ c ∈ part, c ∈ l := by
  intro l
  induction l with
  | nil =>
    intro part hp c hc
    simp [pySplitAny] at hp
    subst hp
    simp at hc
  | cons a rest ih =>
    intro part hp c hc
    simp only [pySplitAny] at hp
    by_cases ha : seps.contains a = true
    · rw [if_pos ha] at hp
      rcases List.mem_cons.mp hp with h | h
      · subst h; simp at hc
      · exact List.mem_cons_of_mem a (ih part h c hc)
    · rw [if_neg ha] at hp
      cases hr : pySplitAny seps rest with
      | nil =>
        rw [hr] at hp
        simp at hp
        subst hp
        simp at hc
        rw [hc]
        exact List.mem_cons_self a rest
      | cons h0 t =>
        rw [hr] at hp
        rcases List.mem_cons.mp hp with h | h
        · subst h
          rcases List.mem_cons.mp hc with h1 | h1
          · rw [h1]; exact List.mem_cons_self a rest
          · exact List.mem_cons_of_mem a
              (ih h0 (by rw [hr]; exact List.mem_cons_self h0 t) c h1)
        · exact List.mem_cons_of_mem a
            (ih part (by rw [hr]; exact List.mem_cons_of_mem h0 h) c hc)

theorem pySplitOnce_subset (sep : Char) :
    ∀ (l acc part : List Char), part ∈ pySplitOnce sep l acc →
      ∀ c ∈ part, c ∈ l ∨ c ∈ acc := by
  intro l
  induction l with
  | nil =>
    intro acc part hp c hc
    simp [pySplitOnce] at hp
    subst hp
    right
    exact List.mem_reverse.mp hc
  | cons a rest ih =>
    intro acc part hp c hc
    simp only [pySplitOnce] at hp
    by_cases ha : a = sep
    · rw [if_pos ha] at hp
      rcases List.mem_cons.mp hp with h | h
      · subst h
        right
        exact List.mem_reverse.mp hc
      · simp at h
        subst h
        left
        exact List.mem_cons_of_mem a hc
    · rw [if_neg ha] at hp
      rcases ih (a :: acc) part hp c hc with h | h
      · left; exact List.mem_cons_of_mem a h
      · rcases List.mem_cons.mp h with h1 | h1
        · rw [h1]; left; exact List.mem_cons_self a rest
        · right; exact h1

theorem tupleParts_ne_backslash :
    ∀ (ps : List (List Char)) (acc : List String),
      (∀ p ∈ ps, '\\' ∉ p) → (∀ s ∈ acc, '\\' ∉ s.data) →
      ∀ s ∈ ps.foldl (fun parts part =>
          if part = [] then parts
          else
            match pyInt part with
            | some n => parts ++ [toString n]
            | none => parts ++ ["\"" ++ part.asString ++ "\""]) acc,
        '\\' ∉ s.data := by
  intro ps
  induction ps with
  | nil => intro acc _ hacc s hs; exact hacc s hs
  | cons p rest ih =>
    intro acc hps hacc s hs
    simp only [List.foldl_cons] at hs
    refine ih _ (fun q hq => hps q (List.mem_cons_of_mem p hq)) ?_ s hs
    intro t ht
    by_cases hp0 : p = []
    · rw [if_pos hp0] at ht
      exact hacc t ht
    · rw [if_neg hp0] at ht
      cases hint : pyInt p with
      | some n =>
        rw [hint] at ht
        rcases List.mem_append.mp ht with h | h
        · exact hacc t h
        · simp at h
          subst h
          intro hc
          exact intToString_ne_backslash n '\\' hc rfl
      | none =>
        rw [hint] at ht
        rcases List.mem_append.mp ht with h | h
        · exact hacc t h
        · simp at h
          subst h
          intro hc
          rw [String.data_append, String.data_append] at hc
          rcases List.mem_append.mp hc with h1 | h1
          · rcases List.mem_append.mp h1 with h2 | h2
            · exact absurd h2 (by decide)
            · exact hps p (List.mem_cons_self p rest) h2
          · exact absurd h1 (by decide)

theorem pyJoin_ne_backslash :
    ∀ (parts : List String), (∀ s ∈ parts, '\\' ∉ s.data) →
      '\\' ∉ (pyJoin ", " parts).data := by
  intro parts
  induction parts with
  | nil => intro _ hc; exact absurd hc (by decide)
  | cons x xs ih =>
    intro h hc
    cases xs with
    | nil => exact h x (List.mem_cons_self x []) hc
    | cons y ys =>
      rw [show pyJoin ", " (x :: y :: ys) = x ++ ", " ++ pyJoin ", " (y :: ys) from rfl,
        String.data_append, String.data_append] at hc
      rcases List.mem_append.mp hc with h1 | h1
      · rcases List.mem_append.mp h1 with h2 | h2
        · exact h x (List.mem_cons_self x (y :: ys)) h2
        · exact absurd h2 (by decide)
      · exact ih (fun s hs => h s (List.mem_cons_of_mem x hs)) h1

/-- A backslash-free version yields a backslash-free tuple encoding, so
the version never smuggles an escape into the replacement template. -/
theorem tupleInsert_ne_backslash (v : String) (hv : '\\' ∉ v.data) :
    '\\' ∉ (tupleInsert v).data := by
  have hsplit0 : ∀ p ∈ pySplitOnce '+' v.data [], '\\' ∉ p := by
    intro p hp hc
    rcases pySplitOnce_subset '+' v.data [] p hp '\\' hc with h | h
    · exact hv h
    · simp at h
  have main : ∀ split : List (List Char), (∀ p ∈ split, '\\' ∉ p) →
      '\\' ∉ (if (split.foldl (fun parts part =>
          if part = [] then parts
          else
            match pyInt part with
            | some n => parts ++ [toString n]
            | none => parts ++ ["\"" ++ part.asString ++ "\""]) []).length = 1
        then pyJoin ", " (split.foldl (fun parts part =>
          if part = [] then parts
          else
            match pyInt part with
            | some n => parts ++ [toString n]
            | none => parts ++ ["\"" ++ part.asString ++ "\""]) []) ++ ","
        else pyJoin ", " (split.foldl (fun parts part =>
          if part = [] then parts
          else
            match pyInt part with
            | some n => parts ++ [toString n]
            | none => parts ++ ["\"" ++ part.asString ++ "\""]) [])).data := by
    intro split hsp hc
    have hparts := tupleParts_ne_backslash split [] hsp (by intro s hs; simp at hs)
    by_cases hlen : (split.foldl (fun parts part =>
        if part = [] then parts
        else
          match pyInt part with
          | some n => parts ++ [toString n]
          | none => parts ++ ["\"" ++ part.asString ++ "\""]) []).length = 1
    · rw [if_pos hlen, String.data_append] at hc
      rcases List.mem_append.mp hc with h | h
      · exact pyJoin_ne_backslash _ hparts h
      · exact absurd h (by decide)
    · rw [if_neg hlen] at hc
      exact pyJoin_ne_backslash _ hparts hc
  have harg : ∀ p ∈ (match pySplitOnce '+' v.data [] with
      | [] => ([] : List (List Char))
      | first :: restSplit => pySplitAny ['-', '.'] first ++ restSplit), '\\' ∉ p := by
    cases hs0 : pySplitOnce '+' v.data [] with
    | nil => intro p hp; simp at hp
    | cons first restSplit =>
      rw [hs0] at hsplit0
      intro p hp
      simp only [List.mem_append] at hp
      rcases hp with h | h
      · intro hc
        exact hsplit0 first (List.mem_cons_self first restSplit)
          (pySplitAny_subset ['-', '.'] first p h '\\' hc)
      · exact hsplit0 p (List.mem_cons_of_mem first h)
  exact main (match pySplitOnce '+' v.data [] with
    | [] => ([] : List (List Char))
    | first :: restSplit => pySplitAny ['-', '.'] first ++ restSplit) harg

/-- Success of the substitution engine depends only on the mode tags,
provided the version is backslash-free; a version with a bad escape can
fail even under valid modes, since the replacement template is compiled
eagerly. -/
theorem substTextOkIff (version content : String) (ps : List SubPattern)
    (hv : '\\' ∉ version.data) :
    (∃ r, _substitute_version_in_text version content ps = .ok r) ↔
      ∀ p ∈ ps, p.mode = "str" ∨ p.mode = "tuple" := by
  have htv : '\\' ∉ (tupleInsert version).data := tupleInsert_ne_backslash version hv
  induction ps generalizing content with
  | nil => simp [_substitute_version_in_text]
  | cons p rest ih =>
    by_cases h1 : p.mode = "str"
    · simp [_substitute_version_in_text, h1,
        reSub_noBackslash p.value version content hv, Except.bind, ih]
    · by_cases h2 : p.mode = "tuple"
      · simp [_substitute_version_in_text, h1, h2,
          reSub_noBackslash p.value (tupleInsert version) content htv, Except.bind, ih]
      · simp [_substitute_version_in_text, h1, h2]

/-! ### Claim theorems -/

/-- C2, counterexample: the substitution engine is not idempotent for
arbitrary pattern lists.  With pattern `(a)(b)` and version `ab`, one
application maps `ab` to `aabb`, and a second application maps `aabb` to
`aaabbb`, so `substitute(v, substitute(v, c, p), p) ≠ substitute(v, c, p)`
at this input. -/
theorem claimC2_counterexample :
    _substitute_version_in_text "ab" "ab" [exPatternAB] = .ok "aabb"
    ∧ _substitute_version_in_text "ab" "aabb" [exPatternAB] = .ok "aaabbb"
    ∧ ("aaabbb" : String) ≠ "aabb" := by
  refine ⟨by rfl, by rfl, by decide⟩

/-- C2 (amended): the substitution engine is deterministic, and applying
it twice with the same version is idempotent for the shipped default
patterns on version-assignment content, though not for arbitrary user
patterns: for every backslash-free version `v` (a backslash would be
escape-processed by the replacement template rather than inserted
literally) and every quote-free current value `w`, the default
`__version__` string pattern rewrites the line `__version__ = "w"` to
`__version__ = "v"`, and (for quote-free `v`) applying the engine again
to that output changes nothing; the both-defaults instances on
`__version__`/`__version_tuple__` content behave the same way. -/
theorem claimC2_idempotent_defaults (v w : String)
    (hb : '\\' ∉ v.data)
    (hv : ∀ c ∈ v.data, ¬ c = '\'' ∧ ¬ c = '"')
    (hw : ∀ c ∈ w.data, ¬ c = '\'' ∧ ¬ c = '"') :
    (∀ (u c : String) (ps : List SubPattern),
      _substitute_version_in_text u c ps = _substitute_version_in_text u c ps)
    ∧ _substitute_version_in_text v ("__version__ = \"" ++ w ++ "\"\n")
        [⟨defaultStrPattern, "str"⟩] = .ok ("__version__ = \"" ++ v ++ "\"\n")
    ∧ (_substitute_version_in_text v ("__version__ = \"" ++ w ++ "\"\n")
        [⟨defaultStrPattern, "str"⟩]).bind
        (fun c2 => _substitute_version_in_text v c2 [⟨defaultStrPattern, "str"⟩]) =
      _substitute_version_in_text v ("__version__ = \"" ++ w ++ "\"\n")
        [⟨defaultStrPattern, "str"⟩]
    ∧ _substitute_version_in_text "1.2.3"
        "__version__ = \"0.1.0\"\n__version_tuple__ = (0, 1, 0)\n" defaultPatterns =
      .ok "__version__ = \"1.2.3\"\n__version_tuple__ = (1, 2, 3)\n"
    ∧ _substitute_version_in_text "1.2.3"
        "__version__ = \"1.2.3\"\n__version_tuple__ = (1, 2, 3)\n" defaultPatterns =
      .ok "__version__ = \"1.2.3\"\n__version_tuple__ = (1, 2, 3)\n" := by
  refine ⟨fun _ _ _ => rfl, substDefaultStrOne v w hb hw, ?_, by rfl, by rfl⟩
  rw [substDefaultStrOne v w hb hw]
  exact substDefaultStrOne v v hb hv

/-- C2, witness: the amended idempotency theorem applied at version
`9.9.9` and current value `0.1.0`. -/
theorem claimC2_witness :
    ('\\' ∉ ("9.9.9" : String).data)
    ∧ (∀ c ∈ ("9.9.9" : String).data, ¬ c = '\'' ∧ ¬ c = '"')
    ∧ (∀ c ∈ ("0.1.0" : String).data, ¬ c = '\'' ∧ ¬ c = '"')
    ∧ _substitute_version_in_text "9.9.9" "__version__ = \"0.1.0\"\n"
        [⟨defaultStrPattern, "str"⟩] = .ok "__version__ = \"9.9.9\"\n" := by
  refine ⟨by decide, by decide, by decide, ?_⟩
  exact (claimC2_idempotent_defaults "9.9.9" "0.1.0" (by decide) (by decide)
    (by decide)).2.1

/-- C3, counterexample: the tuple encoding of `1.2.3-rc.1+abc` renders the
numeric pre-release token `1` as a bare integer, not as the quoted string
the claim's example shows. -/
theorem claimC3_counterexample :
    tupleInsert "1.2.3-rc.1+abc" = "1, 2, 3, \"rc\", 1, \"abc\""
    ∧ ("1, 2, 3, \"rc\", 1, \"abc\"" : String) ≠ "1, 2, 3, \"rc\", \"1\", \"abc\"" := by
  refine ⟨by rfl, by decide⟩

/-- C3 (amended): the tuple encoding splits off metadata at the first
`+`, splits the rest on `-` and `.`, renders numeric tokens (including
numeric pre-release and metadata tokens) as bare integers and non-numeric
tokens as quoted strings, and appends a trailing comma exactly when one
element results: `1.2.3` gives `1, 2, 3`; `1.2.3-rc.1+abc` gives
`1, 2, 3, "rc", 1, "abc"`; `1` gives `1,`; the engine inserts this
encoding for tuple-mode patterns. -/
theorem claimC3_tuple_encoding :
    tupleInsert "1.2.3" = "1, 2, 3"
    ∧ tupleInsert "1.2.3-rc.1+abc" = "1, 2, 3, \"rc\", 1, \"abc\""
    ∧ tupleInsert "1" = "1,"
    ∧ _substitute_version_in_text "1" "__version_tuple__ = (0, 1, 0)\n"
        [⟨defaultTuplePattern, "tuple"⟩] = .ok "__version_tuple__ = (1,)\n" := by
  refine ⟨by rfl, by rfl, by rfl, by rfl⟩

/-- C5, counterexample: the mode tag `string` is not accepted — the
engine raises the fatal configuration error instead of performing a
string-mode substitution (the accepted tags are `str` and `tuple`). -/
theorem claimC5_counterexample :
    _substitute_version_in_text "1.2.3" "__version__ = \"0\"\n"
      [⟨defaultStrPattern, "string"⟩] = .error "Invalid substitution mode: string" := by
  rfl

/-- C5 (amended): the engine accepts exactly the mode tags `str` and
`tuple`: for any backslash-free version, substitution succeeds if and
only if every pattern's mode is one of them; any other mode raises the
fatal error `Invalid substitution mode: <mode>`; a `str` pattern keeps
the captured prefix and suffix and inserts the version between them, a
`tuple` pattern inserts the tuple encoding, and a version containing a
bad escape raises `re.error` from the eagerly compiled replacement
template, even under a valid mode and unmatched content. -/
theorem claimC5_mode_dispatch :
    (∀ (version content : String) (ps : List SubPattern),
      '\\' ∉ version.data →
      ((∃ r, _substitute_version_in_text version content ps = .ok r) ↔
        ∀ p ∈ ps, p.mode = "str" ∨ p.mode = "tuple"))
    ∧ (∀ (version content m : String) (pat : GroupedRegex),
        m ≠ "str" → m ≠ "tuple" →
        _substitute_version_in_text version content [⟨pat, m⟩] =
          .error ("Invalid substitution mode: " ++ m))
    ∧ _substitute_version_in_text "1.2.3" "__version__ = \"0\"\n"
        [⟨defaultStrPattern, "str"⟩] = .ok "__version__ = \"1.2.3\"\n"
    ∧ _substitute_version_in_text "1.2.3" "__version_tuple__ = (0)\n"
        [⟨defaultTuplePattern, "tuple"⟩] = .ok "__version_tuple__ = (1, 2, 3)\n"
    ∧ _substitute_version_in_text "\\q" "no match" [⟨defaultStrPattern, "str"⟩] =
        .error "bad escape \\q at position 5" := by
  refine ⟨fun version content ps hv => substTextOkIff version content ps hv, ?_,
    by rfl, by rfl, by rfl⟩
  intro version content m pat h1 h2
  simp [_substitute_version_in_text, h1, h2]

/-- C5, witness: a concrete invalid mode raises the fatal error, and the
success-iff-modes direction holds at a concrete backslash-free version. -/
theorem claimC5_witness :
    (_substitute_version_in_text "1.2.3" "c" [⟨⟨.chr 'a', .eps, .chr 'b'⟩, "bogus"⟩] =
      .error "Invalid substitution mode: bogus")
    ∧ ∃ r, _substitute_version_in_text "1.2.3" "__version__ = \"0\"\n"
        [⟨defaultStrPattern, "str"⟩] = .ok r := by
  refine ⟨claimC5_mode_dispatch.2.1 "1.2.3" "c" "bogus" ⟨.chr 'a', .eps, .chr 'b'⟩
    (by decide) (by decide), ?_⟩
  exact (claimC5_mode_dispatch.1 "1.2.3" "__version__ = \"0\"\n"
    [⟨defaultStrPattern, "str"⟩] (by decide)).mpr (by simp)

/-- C8: the source recurses into every user value that is a mapping — the
guard `isinstance(value, dict) and isinstance(config.get(key), dict)`
tests the user value twice and never checks the default — so validating
`vcs = .x = 1` against the default schema (whose `vcs` default is the
string `any`) descends into the string and reports
`Unknown key: tool.poetry-dynamic-versioning.vcs.x` via substring
membership, while the specified contract (recurse only when both values
are mappings) reports nothing there. -/
theorem claimC8_divergence :
    _validate_config_section [("vcs", .table [("x", .int 1)])] (.table defaultPDVSection)
      ["tool", "poetry-dynamic-versioning"] =
      .ok ["Unknown key: tool.poetry-dynamic-versioning.vcs.x"]
    ∧ validateSectionSpec [("vcs", .table [("x", .int 1)])] defaultPDVSection
      ["tool", "poetry-dynamic-versioning"] = [] := by
  constructor
  · simp [_validate_config_section, validateItems, pyTruthy, pyContains, pyGetItem,
      defaultPDVSection, Bind.bind, Except.bind, Pure.pure, Except.pure, strContains,
      escapedKey, pyJoin]
  · simp [validateSectionSpec, defaultPDVSection]

/-- C10: a user section whose default-schema counterpart is an empty
mapping validates with no errors whatever its keys; the default for
`files` is the empty mapping, so arbitrary relative-path keys under
`files` (and everything below them) are never reported. -/
theorem claimC10_empty_schema :
    (∀ (config : List (String × TomlValue)) (path : List String),
      _validate_config_section config (.table []) path = .ok [])
    ∧ ((defaultPDVSection.find? (fun e => e.1 = "files")).map (fun e => e.2) =
        some (.table []))
    ∧ (∀ kvs, _validate_config_section [("files", .table kvs)] (.table defaultPDVSection)
        ["tool", "poetry-dynamic-versioning"] = .ok []) := by
  refine ⟨?_, by rfl, ?_⟩
  · intro config path
    simp [_validate_config_section, pyTruthy]
  · intro kvs
    simp [_validate_config_section, validateItems, pyTruthy, pyContains, pyGetItem,
      defaultPDVSection, Bind.bind, Except.bind, Pure.pure, Except.pure]

/-- C4: if the per-project override variable holds a first matching
`name=value` pair for the project, that value is returned and the blanket
bypass is never consulted (the result does not depend on the bypass
binding); pairs without `=` are skipped and the first match wins; when no
pair matches but the bypass variable is set, its value is returned for
any project name (including an absent name); when neither applies,
nothing is returned; concretely, with override `foo=9.9.9` and bypass
`1.0.0`, project `foo` resolves to `9.9.9` and project `bar` to `1.0.0`. -/
theorem claimC4_override_precedence :
    (∀ (name : String) (env : List (String × String)) (raw v : String),
        envGet env _OVERRIDE_ENV = some raw →
        overrideFirstMatch name (pySplitChar ',' raw.data) = some v →
        _get_override_version (some name) env = some v)
    ∧ (∀ (name : String) (pair : List Char) (rest : List (List Char)),
        pair.contains '=' = false →
        overrideFirstMatch name (pair :: rest) = overrideFirstMatch name rest)
    ∧ (∀ (name : String) (pair : List Char) (rest : List (List Char)) (k v : List Char),
        pair.contains '=' = true → pySplitOnce '=' pair [] = [k, v] →
        (pyStrip k).asString = name →
        overrideFirstMatch name (pair :: rest) = some (pyStrip v).asString)
    ∧ (∀ (name : Option String) (env : List (String × String)) (b : String),
        (∀ n raw, name = some n → envGet env _OVERRIDE_ENV = some raw →
          overrideFirstMatch n (pySplitChar ',' raw.data) = none) →
        envGet env _BYPASS_ENV = some b →
        _get_override_version name env = some b)
    ∧ (∀ (name : Option String) (env : List (String × String)),
        (∀ n raw, name = some n → envGet env _OVERRIDE_ENV = some raw →
          overrideFirstMatch n (pySplitChar ',' raw.data) = none) →
        envGet env _BYPASS_ENV = none →
        _get_override_version name env = none)
    ∧ _get_override_version (some "foo")
        [(_OVERRIDE_ENV, "foo=9.9.9"), (_BYPASS_ENV, "1.0.0")] = some "9.9.9"
    ∧ _get_override_version (some "bar")
        [(_OVERRIDE_ENV, "foo=9.9.9"), (_BYPASS_ENV, "1.0.0")] = some "1.0.0" := by
  refine ⟨?_, ?_, ?_, ?_, ?_, by rfl, by rfl⟩
  · intro name env raw v h1 h2
    simp [_get_override_version, h1, h2]
  · intro name pair rest h
    simp at h
    simp [overrideFirstMatch, h]
  · intro name pair rest k v h1 h2 h3
    simp at h1
    simp [overrideFirstMatch, h1, h2, h3]
  · intro name env b h hb
    match name with
    | none => simp [_get_override_version, hb]
    | some n =>
      cases henv : envGet env _OVERRIDE_ENV with
      | none => simp [_get_override_version, henv, hb]
      | some raw => simp [_get_override_version, henv, hb, h n raw rfl henv]
  · intro name env h hb
    match name with
    | none => simp [_get_override_version, hb]
    | some n =>
      cases henv : envGet env _OVERRIDE_ENV with
      | none => simp [_get_override_version, henv, hb]
      | some raw => simp [_get_override_version, henv, hb, h n raw rfl henv]

/-- C4, witness: the first-match clause applied to the concrete
environment `foo=9.9.9` with bypass `1.0.0`. -/
theorem claimC4_witness :
    _get_override_version (some "foo")
      [(_OVERRIDE_ENV, "foo=9.9.9"), (_BYPASS_ENV, "1.0.0")] = some "9.9.9" :=
  claimC4_override_precedence.1 "foo" [(_OVERRIDE_ENV, "foo=9.9.9"), (_BYPASS_ENV, "1.0.0")]
    "foo=9.9.9" "9.9.9" (by rfl) (by rfl)

/-- C9: with the fix-shallow-repository option set (and no environment
override, and a valid VCS name), resolution first queries the VCS
collaborator with strict checking disabled; an unshallow operation is
issued exactly when the first result carries the shallow-repository
concern and the detected VCS is git; at most two queries are made in
total (so the re-query happens at most once); and every query after the
first honors the configured strict flag. -/
theorem claimC9_shallow_retry
    (config : Config) (name : Option String) (env : List (String × String))
    (fromVcs : Bool → Bool → Except String VersionObj)
    (runUnshallow : Except String Unit) (serialize : VersionObj → Except String String)
    (kind : VcsKind)
    (hfix : config.fixShallowRepository = true)
    (hov : _get_override_version name env = none)
    (hvcs : parseVcs config.vcs = .ok kind) :
    ((_get_version config name env fromVcs runUnshallow serialize).2.head? =
      some (.query false))
    ∧ (((_get_version config name env fromVcs runUnshallow serialize).2.filter
        isQueryEvent).length ≤ 2)
    ∧ (VcsEvent.unshallow ∈ (_get_version config name env fromVcs runUnshallow serialize).2 ↔
        ∃ vo, fromVcs false false = .ok vo ∧
          VcsConcern.shallowRepository ∈ vo.concerns ∧ vo.vcs = VcsKind.git)
    ∧ (∀ b, VcsEvent.query b ∈
        (_get_version config name env fromVcs runUnshallow serialize).2.tail →
        b = config.strict) := by
  cases h1 : fromVcs false false with
  | error e =>
    simp [_get_version, hov, hvcs, hfix, _get_version_from_dunamai, h1, isQueryEvent]
  | ok vo =>
    by_cases hsg : VcsConcern.shallowRepository ∈ vo.concerns ∧ vo.vcs = VcsKind.git
    · cases h2 : runUnshallow with
      | error e =>
        simp [_get_version, hov, hvcs, hfix, _get_version_from_dunamai, h1, h2, hsg,
          isQueryEvent]
      | ok u =>
        cases h3 : fromVcs true config.strict with
        | error e =>
          simp [_get_version, hov, hvcs, hfix, _get_version_from_dunamai, h1, h2, h3,
            hsg, isQueryEvent]
        | ok vo2 =>
          simp [_get_version, hov, hvcs, hfix, _get_version_from_dunamai, h1, h2, h3,
            hsg, isQueryEvent]
    · cases hstrict : config.strict with
      | true =>
        cases h3 : fromVcs false true with
        | error e =>
          simp [_get_version, hov, hvcs, hfix, _get_version_from_dunamai, h1, h3, hsg,
            hstrict, isQueryEvent]
        | ok vo2 =>
          simp [_get_version, hov, hvcs, hfix, _get_version_from_dunamai, h1, h3, hsg,
            hstrict, isQueryEvent]
      | false =>
        simp [_get_version, hov, hvcs, hfix, _get_version_from_dunamai, h1, hsg,
          hstrict, isQueryEvent]

/-- C9, witness: a concrete shallow git repository with the fix enabled
produces the initial non-strict query as its first collaborator call. -/
theorem claimC9_witness :
    ((_get_version exCfgC9 (some "proj") [] exOracleShallow (.ok ())
      (fun _ => .ok "1.2.3")).2.head? = some (.query false)) :=
  (claimC9_shallow_retry exCfgC9 (some "proj") [] exOracleShallow (.ok ())
    (fun _ => .ok "1.2.3") .git (by rfl) (by rfl) (by rfl)).1

/-- C6, counterexample: an extra file that already exists with content
`old` is not left unchanged — `_apply_version` overwrites it with the
dedented initial content `hi`. -/
theorem claimC6_counterexample :
    readText exFsC6 ["proj", "a.txt"] = .ok "old"
    ∧ _apply_version "9.9" exCfgC6 exMPath false exStFresh exFsC6 =
        .ok (exStFresh, exFsC6After)
    ∧ readText exFsC6After ["proj", "a.txt"] = .ok "hi"
    ∧ ("hi" : String) ≠ "old" :=
  ⟨rfl, rfl, rfl, by decide⟩

/-- C6 (amended): for every configured extra file carrying an
initial-content value, the extra-files step of `_apply_version` ensures
the file's immediate parent directory exists (creating one level when
missing) and writes the dedented initial content unconditionally,
overwriting any existing content; extra files without initial content,
and every path other than the written files and their immediate parent
directories, are left untouched by this step. -/
theorem claimC6_extra_files
    (cfgFiles : List (String × FileInfo)) (parentDir : Path) (fs fs' : FS)
    (h : applyExtraFiles cfgFiles parentDir fs = .ok fs')
    (hnodup : (cfgFiles.map (fun e => parentDir ++ splitPathString e.1)).Nodup) :
    (∀ fn fi ic, (fn, fi) ∈ cfgFiles → fi.initialContent = some ic →
      fs'.lookup (parentDir ++ splitPathString fn) = some (.text (pyDedent ic))
      ∧ isDir fs' (parentPath (parentDir ++ splitPathString fn)) = true)
    ∧ (∀ p, (∀ e ∈ cfgFiles, e.2.initialContent ≠ none →
        p ≠ parentDir ++ splitPathString e.1 ∧
        p ≠ parentPath (parentDir ++ splitPathString e.1)) →
      fs'.lookup p = fs.lookup p) :=
  ⟨extraFiles_writes h hnodup, extraFiles_frame h⟩

/-- C6, witness: the extra-files step on a file that already exists with
content `old` ends with the dedented initial content `hi`. -/
theorem claimC6_witness :
    FS.lookup exFsW6After ["proj", "a.txt"] = some (.text (pyDedent "hi")) :=
  ((claimC6_extra_files [("a.txt", ⟨some "hi", none⟩)] ["proj"] exFsW6 exFsW6After
    (by rfl) (by simp)).1 "a.txt" ⟨some "hi", none⟩ "hi" (by simp) rfl).1

/-- C7: a second apply for a project whose registry entry already records
substitutions skips the substitution step entirely — the registry is
unchanged (no new original-content entries) and the filesystem changes
only at the manifest path and at the extra-file paths (and their created
parent directories). -/
theorem claimC7_apply_without_repeat
    (ver : String) (config : Config) (mpath : Path) (retain : Bool)
    (st st' : PluginState) (fs fs' : FS) (d0 : TomlDoc) (proj : ProjectState)
    (hd : readDoc fs mpath = .ok d0)
    (hproj : lookupProj st.projects d0.name = some proj)
    (hne : proj.substitutions ≠ [])
    (h : _apply_version ver config mpath retain st fs = .ok (st', fs')) :
    st' = st
    ∧ ∀ p, p ≠ mpath →
        (∀ e ∈ config.files, e.2.initialContent ≠ none →
          p ≠ parentPath mpath ++ splitPathString e.1 ∧
          p ≠ parentPath (parentPath mpath ++ splitPathString e.1)) →
        fs'.lookup p = fs.lookup p := by
  unfold _apply_version at h
  rw [exceptBindOk] at h
  obtain ⟨d, hd', h⟩ := h
  rw [hd] at hd'
  injection hd' with hdd
  subst hdd
  rw [exceptBindOk] at h
  obtain ⟨fs₁, hw, h⟩ := h
  rw [exceptBindOk] at h
  obtain ⟨fs₂, hextra, h⟩ := h
  have hname : (if ¬ retain ∧ ¬ st.cliMode then
      { { d0 with version := ver } with enable := false }
      else { d0 with version := ver }).name = d0.name := by
    split <;> rfl
  rw [hname] at h
  simp only [_substitute_version, hproj] at h
  rw [if_pos hne] at h
  injection h with hpair
  have hst : st' = st := congrArg Prod.fst hpair.symm
  have hfs : fs' = fs₂ := congrArg Prod.snd hpair.symm
  refine ⟨hst, ?_⟩
  intro p hp hpne
  rw [hfs]
  rw [extraFiles_frame hextra p hpne]
  obtain ⟨hlook, -, -⟩ := writeEntry_ok hw
  rw [hlook p]
  simp [hp]

/-- C7, witness: a concrete second apply leaves an unrelated existing
file untouched. -/
theorem claimC7_witness :
    FS.lookup exFsC7After ["proj", "keep.py"] = FS.lookup exFsC7Start ["proj", "keep.py"] :=
  ((claimC7_apply_without_repeat "9.8" exCfgC1 exMPath false exStC7 exStC7
    exFsC7Start exFsC7After exDocC1 ⟨exMPath, "0.1.0", "9.9", [(["proj", "v.py"], "orig")]⟩
    (by rfl) (by rfl) (by decide) (by rfl)).2
    ["proj", "keep.py"] (by decide) (by decide))

/-- C1, counterexample: when the apply step's extra-file write rewrites a
substitution target before substitution records it, revert restores the
file to the recorded (post-extra-write) content, not to its pre-apply
content: `v.py` starts as `PRE`, is recorded with original content
`__version__ = "0"\n`, is not persistent-marked, and after revert holds
that recorded content instead of `PRE`. -/
theorem claimC1_counterexample :
    readText exFsC1 ["proj", "v.py"] = .ok "PRE"
    ∧ _apply_version "9.9" exCfgC1 exMPath false exStFresh exFsC1 =
        .ok (exStC1After, exFsC1After)
    ∧ (lookupProj exStC1After.projects "proj").map (fun p => p.substitutions) =
        some [(["proj", "v.py"], "__version__ = \"0\"\n")]
    ∧ persistentPaths [("v.py", ⟨some "__version__ = \"0\"\n", none⟩)] exMPath = []
    ∧ _revert_version false exStC1After exFsC1After = .ok (⟨false, []⟩, exFsC1Final)
    ∧ readText exFsC1Final ["proj", "v.py"] = .ok "__version__ = \"0\"\n"
    ∧ ("__version__ = \"0\"\n" : String) ≠ "PRE" :=
  ⟨rfl, rfl, rfl, rfl, rfl, rfl, by decide⟩

/-- C1 (amended): for a project applied within one process run (fresh
registry entry, manifest readable, project names matching), provided no
recorded substitution touches the manifest itself, revert restores every
file recorded in the project's substitution map to its recorded content —
the content the file held at the moment of substitution, which is the
pre-apply content unless apply's extra-file step rewrote it first — with
the exception of files marked persistent-substitution in the revert-time
manifest configuration, which keep the content apply wrote; the original
version string is written back into the manifest's version field; and the
registry is cleared. -/
theorem claimC1_roundtrip
    (name origV ver ver2 : String) (config : Config) (mpath : Path)
    (retain retain2 : Bool)
    (st0 st1 st2 : PluginState) (fs0 fs1 fs2 : FS) (d0 d1 : TomlDoc)
    (proj1 : ProjectState)
    (hst0 : st0.projects = [(name, ⟨mpath, origV, ver2, []⟩)])
    (hd0 : readDoc fs0 mpath = .ok d0)
    (hname0 : d0.name = name)
    (happly : _apply_version ver config mpath retain st0 fs0 = .ok (st1, fs1))
    (hd1 : readDoc fs1 mpath = .ok d1)
    (hproj1 : lookupProj st1.projects name = some proj1)
    (hnomanifest : ∀ e ∈ proj1.substitutions, e.1 ≠ mpath)
    (hrevert : _revert_version retain2 st1 fs1 = .ok (st2, fs2)) :
    (∀ f o, (f, o) ∈ proj1.substitutions →
      f ∉ persistentPaths d1.files mpath → readText fs2 f = .ok o)
    ∧ (∀ f o, (f, o) ∈ proj1.substitutions →
      f ∈ persistentPaths d1.files mpath → fs2.lookup f = fs1.lookup f)
    ∧ (∃ d2, readDoc fs2 mpath = .ok d2 ∧ d2.version = origV)
    ∧ st2.projects = [] := by
  -- Apply side: the registry after apply is the fresh entry extended by
  -- records whose keys are distinct.
  unfold _apply_version at happly
  rw [exceptBindOk] at happly
  obtain ⟨d, hd', happly⟩ := happly
  rw [hd0] at hd'
  injection hd' with hdd
  subst hdd
  rw [exceptBindOk] at happly
  obtain ⟨fsw, hw, happly⟩ := happly
  rw [exceptBindOk] at happly
  obtain ⟨fse, hextra, happly⟩ := happly
  have hdocname : (if ¬ retain ∧ ¬ st0.cliMode then
      { { d0 with version := ver } with enable := false }
      else { d0 with version := ver }).name = d0.name := by
    split <;> rfl
  rw [hdocname, hname0] at happly
  have hlp : lookupProj st0.projects name =
      some ⟨mpath, origV, ver2, []⟩ := by
    simp [lookupProj, hst0]
  simp only [_substitute_version, hlp] at happly
  rw [if_neg (by simp)] at happly
  obtain ⟨extra, hst1, hcli1, hsubl⟩ :=
    substLoop_state (collectFiles fse (FolderConfig.fromConfig config (parentPath mpath)))
      st0 fse st1 fs1 mpath origV ver2 [] hst0
      (collectFiles_nodup fse (FolderConfig.fromConfig config (parentPath mpath)))
      (by simp) happly
  simp only [List.nil_append] at hst1
  have hNodup : (extra.map Prod.fst).Nodup :=
    (collectFiles_nodup fse (FolderConfig.fromConfig config (parentPath mpath))).sublist hsubl
  rw [hst1] at hproj1
  have hproj1eq : proj1 = ⟨mpath, origV, ver2, extra⟩ := by
    have hone : lookupProj [(name, (⟨mpath, origV, ver2, extra⟩ : ProjectState))] name =
        some ⟨mpath, origV, ver2, extra⟩ := by simp [lookupProj]
    rw [hone] at hproj1
    exact (Option.some.inj hproj1).symm
  subst hproj1eq
  have hmnotin : mpath ∉ extra.map Prod.fst := by
    intro hmem
    obtain ⟨e, he, hfst⟩ := List.mem_map.mp hmem
    exact hnomanifest e he hfst
  -- Revert side.
  unfold _revert_version at hrevert
  rw [exceptBindOk] at hrevert
  obtain ⟨fsR, hloop, hpure⟩ := hrevert
  simp only [Pure.pure, Except.pure] at hpure
  injection hpure with hpair
  have hst2 : st2 = { st1 with projects := [] } := (congrArg Prod.fst hpair).symm
  have hfs2 : fs2 = fsR := (congrArg Prod.snd hpair).symm
  rw [hst1] at hloop
  simp only [revertLoop] at hloop
  rw [exceptBindOk] at hloop
  obtain ⟨fsA0, hrp, hrest⟩ := hloop
  injection hrest with hfsR
  subst hfsR
  unfold revertProject at hrp
  rw [exceptBindOk] at hrp
  obtain ⟨dR, hdR, hrp⟩ := hrp
  simp only at hdR
  rw [hd1] at hdR
  injection hdR with hdR1
  subst hdR1
  rw [exceptBindOk] at hrp
  obtain ⟨pair, hpairEq, hrp⟩ := hrp
  obtain ⟨dA, fsA⟩ := pair
  unfold revertRestore at hpairEq
  by_cases hx : extra = []
  · subst hx
    rw [if_neg (by simp)] at hpairEq
    simp only [Pure.pure, Except.pure] at hpairEq
    injection hpairEq with hpe
    have hdA : dA = d1 := (congrArg Prod.fst hpe).symm
    have hfsA : fsA = fs1 := (congrArg Prod.snd hpe).symm
    subst hdA
    subst hfsA
    obtain ⟨hlookR, -, -⟩ := writeEntry_ok hrp
    refine ⟨by simp, by simp, ?_, by rw [hst2]⟩
    rw [hfs2]
    unfold readDoc
    rw [hlookR mpath]
    simp
    split <;> rfl
  · rw [if_pos (by simpa using hx)] at hpairEq
    rw [exceptBindOk] at hpairEq
    obtain ⟨fsA1, hrestore, hpairEq⟩ := hpairEq
    rw [exceptBindOk] at hpairEq
    obtain ⟨dA1, hdA1, hpairEq⟩ := hpairEq
    simp only [Pure.pure, Except.pure] at hpairEq
    injection hpairEq with hpe
    have hdA : dA = dA1 := (congrArg Prod.fst hpe).symm
    have hfsA : fsA = fsA1 := (congrArg Prod.snd hpe).symm
    subst hdA
    subst hfsA
    have hframeM : fsA.lookup mpath = fs1.lookup mpath :=
      restore_frame extra fs1 fsA hrestore mpath hmnotin
    have hdAd1 : dA = d1 := by
      unfold readDoc at hdA1 hd1
      rw [hframeM] at hdA1
      rw [hd1] at hdA1
      injection hdA1 with hh
      exact hh.symm
    subst hdAd1
    obtain ⟨hlookR, -, -⟩ := writeEntry_ok hrp
    have hsets := restore_sets extra fs1 fsA hrestore hNodup
    refine ⟨?_, ?_, ?_, by rw [hst2]⟩
    · intro f o hmem hnp
      have hfm : f ≠ mpath := hnomanifest (f, o) hmem
      rw [hfs2]
      unfold readText
      rw [hlookR f]
      rw [if_neg hfm]
      rw [(hsets f o hmem).1 hnp]
    · intro f o hmem hp
      have hfm : f ≠ mpath := hnomanifest (f, o) hmem
      rw [hfs2]
      rw [hlookR f]
      rw [if_neg hfm]
      exact (hsets f o hmem).2 hp
    · rw [hfs2]
      unfold readDoc
      rw [hlookR mpath]
      simp
      split <;> rfl

/-- C1, witness: the amended round trip applied to the concrete fixture
run restores the recorded content of `v.py`. -/
theorem claimC1_witness :
    readText exFsC1Final ["proj", "v.py"] = .ok "__version__ = \"0\"\n" :=
  (claimC1_roundtrip "proj" "0.1.0" "9.9" "9.9" exCfgC1 exMPath false false
    exStFresh exStC1After ⟨false, []⟩ exFsC1 exFsC1After exFsC1Final exDocC1
    ⟨"proj", "9.9", false, [("v.py", ⟨some "__version__ = \"0\"\n", none⟩)], "rest"⟩
    ⟨exMPath, "0.1.0", "9.9", [(["proj", "v.py"], "__version__ = \"0\"\n")]⟩
    (by rfl) (by rfl) (by rfl) (by rfl) (by rfl) (by rfl) (by decide) (by rfl)).1
    ["proj", "v.py"] "__version__ = \"0\"\n" (by decide) (by decide)

end PDV
